import Mathlib

/-!
Verification development for the MindVault repository.

The Python source is shallowly embedded: strings are lists of character
codes (UTF-8 byte values for the hashing layer; the texts considered are
ASCII unless noted), machine floats used by the source for scores and
vectors are modelled by exact rationals, database rows are lists of
records, and every external call (OpenAI embeddings, chat completions,
langdetect) is a parameter of the embedding.  All recursion is structural
(fuel-based where the source loops), so every definition evaluates by
kernel reduction.
-/

namespace MindVault

/-- Byte strings and text: a Python `str` is modelled by the list of its
character codes (for hashing, its UTF-8 bytes; the two coincide on ASCII). -/
abbrev Str := List Nat

/-- Character codes of a Lean string literal, for writing concrete inputs. -/
def codes (s : String) : Str := s.toList.map Char.toNat

/-- ASCII lowercasing of one character code, as Python `str.lower` acts on ASCII. -/
def lowerN (n : Nat) : Nat := if 65 ≤ n ∧ n ≤ 90 then n + 32 else n

/-- Python `str.lower` (ASCII fragment). -/
def lowerStr (s : Str) : Str := s.map lowerN

/-- Python whitespace for `str.strip` / regex `\s`: space, tab, LF, CR, VT, FF. -/
def isSpace (c : Nat) : Bool := c = 32 || c = 9 || c = 10 || c = 13 || c = 11 || c = 12

/-- Python `str.strip()`: drop leading and trailing whitespace. -/
def pyStrip (s : Str) : Str := ((s.dropWhile isSpace).reverse.dropWhile isSpace).reverse

/-- Python slicing `s[a:b]` for `0 ≤ a ≤ b`. -/
def pySlice (s : Str) (a b : Nat) : Str := (s.drop a).take (b - a)

/-! ## SHA-256 (`hashlib.sha256`), executable over byte lists -/

/-- Truncate to a 32-bit word. -/
def w32 (x : Nat) : Nat := x % 4294967296

/-- Rotate a 32-bit word right by `n` bits. -/
def rotr (n x : Nat) : Nat := (x >>> n) + ((x % 2 ^ n) <<< (32 - n))

def shaCh (x y z : Nat) : Nat := (x &&& y) ^^^ ((x ^^^ 4294967295) &&& z)

def shaMaj (x y z : Nat) : Nat := (x &&& y) ^^^ (x &&& z) ^^^ (y &&& z)

def bigS0 (x : Nat) : Nat := rotr 2 x ^^^ rotr 13 x ^^^ rotr 22 x

def bigS1 (x : Nat) : Nat := rotr 6 x ^^^ rotr 11 x ^^^ rotr 25 x

def smallS0 (x : Nat) : Nat := rotr 7 x ^^^ rotr 18 x ^^^ (x >>> 3)

def smallS1 (x : Nat) : Nat := rotr 17 x ^^^ rotr 19 x ^^^ (x >>> 10)

/-- The 64 SHA-256 round constants. -/
def shaK : List Nat :=
  [1116352408, 1899447441, 3049323471, 3921009573, 961987163, 1508970993,
   2453635748, 2870763221, 3624381080, 310598401, 607225278, 1426881987,
   1925078388, 2162078206, 2614888103, 3248222580, 3835390401, 4022224774,
   264347078, 604807628, 770255983, 1249150122, 1555081692, 1996064986,
   2554220882, 2821834349, 2952996808, 3210313671, 3336571891, 3584528711,
   113926993, 338241895, 666307205, 773529912, 1294757372, 1396182291,
   1695183700, 1986661051, 2177026350, 2456956037, 2730485921, 2820302411,
   3259730800, 3345764771, 3516065817, 3600352804, 4094571909, 275423344,
   430227734, 506948616, 659060556, 883997877, 958139571, 1322822218,
   1537002063, 1747873779, 1955562222, 2024104815, 2227730452, 2361852424,
   2428436474, 2756734187, 3204031479, 3329325298]

/-- The SHA-256 initial hash state. -/
def shaH0 : List Nat :=
  [1779033703, 3144134277, 1013904242, 2773480762,
   1359893119, 2600822924, 528734635, 1541459225]

/-- Big-endian serialization of `n` into `k` bytes. -/
def toBytesBE : Nat → Nat → Str
  | 0, _ => []
  | Nat.succ k, n => toBytesBE k (n >>> 8) ++ [n % 256]

/-- SHA-256 padding: append 0x80, zeros, and the 64-bit big-endian bit length. -/
def padMsg (m : Str) : Str :=
  let z := (64 - (m.length + 9) % 64) % 64
  m ++ [128] ++ List.replicate z 0 ++ toBytesBE 8 (8 * m.length)

/-- Group bytes four at a time into big-endian 32-bit words. -/
def bytesToWords : Str → List Nat
  | b0 :: b1 :: b2 :: b3 :: rest => (((b0 * 256 + b1) * 256 + b2) * 256 + b3) :: bytesToWords rest
  | _ => []

/-- One extension step of the SHA-256 message schedule. -/
def schedStep (w : List Nat) : List Nat :=
  let i := w.length
  w ++ [w32 (w.getD (i - 16) 0 + smallS0 (w.getD (i - 15) 0) + w.getD (i - 7) 0 +
    smallS1 (w.getD (i - 2) 0))]

/-- Extend the 16 block words to the 64 schedule words. -/
def sched (w : List Nat) : List Nat := (List.range 48).foldl (fun acc _ => schedStep acc) w

/-- One SHA-256 compression round on the state `[a,b,c,d,e,f,g,h]` with `(k, w)`. -/
def shaRound (st : List Nat) (kw : Nat × Nat) : List Nat :=
  match st with
  | [a, b, c, d, e, f, g, h] =>
      let t1 := w32 (h + bigS1 e + shaCh e f g + kw.1 + kw.2)
      let t2 := w32 (bigS0 a + shaMaj a b c)
      [w32 (t1 + t2), a, b, c, w32 (d + t1), e, f, g]
  | _ => st

/-- Compress one 64-byte block into the running hash state. -/
def compress (h : List Nat) (block : Str) : List Nat :=
  let w := sched (bytesToWords block)
  let st := (shaK.zip w).foldl shaRound h
  List.zipWith (fun x y => w32 (x + y)) h st

/-- Split a byte list into 64-byte chunks (structural recursion on a fuel bound). -/
def chunks64 : Nat → Str → List Str
  | 0, _ => []
  | _, [] => []
  | Nat.succ fuel, l => l.take 64 :: chunks64 fuel (l.drop 64)

/-- The eight 32-bit words of the SHA-256 digest of a byte string. -/
def sha256words (m : Str) : List Nat :=
  let p := padMsg m
  (chunks64 p.length p).foldl compress shaH0

def hexCode (n : Nat) : Nat := if n < 10 then 48 + n else 87 + n

/-- The eight lowercase hex characters (as ASCII codes) of a 32-bit word. -/
def wordToHex (x : Nat) : List Nat :=
  (List.range 8).map (fun k => hexCode ((x >>> (4 * (7 - k))) % 16))

/-- Lowercase hex SHA-256 digest, as the ASCII codes of Python `hexdigest()`. -/
def sha256hex (m : Str) : Str := (sha256words m).map wordToHex |>.flatten

/-! ## Content hash (`_compute_hash` in `api/backup/routers/ingest.py`) -/

/-- Faithful to `_compute_hash`: for each of the four parts in order the code runs
`h.update(part.encode("utf-8"))` then `h.update(b"\x1e")`, so every part —
including the last — is followed by the 0x1E unit separator. -/
def computeHash (subject plainText accountId externalId : Str) : Str :=
  sha256hex (List.foldl (fun acc part => acc ++ part ++ [30]) []
    [subject, plainText, accountId, externalId])

/-- Modelled from the spec words for comparison: the four parts joined with the
single byte 0x1E only BETWEEN consecutive parts (no trailing separator). -/
def specBetweenHash (subject plainText accountId externalId : Str) : Str :=
  sha256hex (subject ++ [30] ++ plainText ++ [30] ++ accountId ++ [30] ++ externalId)

/-! ## Tag normalization (`_normalize_tags`) -/

/-- Faithful to `_normalize_tags`: lowercase + trim each tag, drop empties,
keep the first occurrence of each distinct result. -/
def normalizeTags (tags : List Str) : List Str :=
  (tags.foldl (fun st t =>
    let tt := pyStrip (lowerStr t)
    if tt = [] then st
    else if st.contains tt then st
    else st ++ [tt]) [])

/-! ## Char-window chunker (`_chunk_text` in `api/backup/routers/ingest.py`)

The four constants are read from the environment
(`CHUNK_TARGET_CHARS`/`CHUNK_OVERLAP_CHARS`/`CHUNK_MIN_JOIN_CHARS`/
`CHUNK_MIN_KEEP_CHARS`, defaults 1200/150/120/20), so they are a parameter
of the embedding.  Each produced chunk is instrumented with the half-open
source interval `[a, b)` of the window(s) it came from; the text component
`t` mirrors the Python value exactly and the intervals are ghost data used
only by theorems. -/

/-- The chunker environment constants. -/
structure ChunkCfg where
  target : Nat
  overlap : Nat
  minJoin : Nat
  minKeep : Nat
deriving DecidableEq, Repr

/-- The source defaults: target 1200, overlap 150, min-join 120, min-keep 20. -/
def defaultCfg : ChunkCfg := ⟨1200, 150, 120, 20⟩

/-- A chunk: source interval `[a, b)` plus its text. -/
structure Iv where
  a : Nat
  b : Nat
  t : Str
deriving DecidableEq, Repr

/-- The window loop of `_chunk_text`: from position `i`, emit the window
`[i, min(n, i+CHUNK_TARGET))`, stop if it reaches the end, else advance to
`j - CHUNK_OVERLAP`.  Structural recursion on a fuel bound (the loop advances
by `CHUNK_TARGET - CHUNK_OVERLAP ≥ 1` per iteration, so fuel `n + 1` is
plenty; properties proved below hold for every fuel). -/
def windowLoop (cfg : ChunkCfg) (n : Nat) : Nat → Nat → List (Nat × Nat)
  | 0, _ => []
  | Nat.succ fuel, i =>
      if i < n then
        let j := min n (i + cfg.target)
        (i, j) :: (if n ≤ j then [] else windowLoop cfg n fuel (j - cfg.overlap))
      else []

def windows (cfg : ChunkCfg) (n : Nat) : List (Nat × Nat) := windowLoop cfg n (n + 1) 0

/-- First pass of `_chunk_text`: `chunk = s[i:j].strip(); if chunk: chunks.append(chunk)`. -/
def rawChunks (cfg : ChunkCfg) (s : Str) : List Iv :=
  (windows cfg s.length).filterMap (fun p =>
    let t := pyStrip (pySlice s p.1 p.2)
    if t = [] then none else some ⟨p.1, p.2, t⟩)

/-- One step of the merge loop of `_chunk_text` over the state `(merged, buf)`. -/
def mergeStep (cfg : ChunkCfg) (st : List Iv × Option Iv) (c : Iv) : List Iv × Option Iv :=
  let (merged, buf) := st
  if c.t.length < cfg.minJoin then
    match buf with
    | some b => (merged, some ⟨b.a, c.b, pyStrip (b.t ++ [10] ++ c.t)⟩)
    | none => (merged, some c)
  else
    match buf with
    | some b =>
        if b.t.length < cfg.minJoin then
          (merged ++ [⟨b.a, c.b, pyStrip (b.t ++ [10] ++ c.t)⟩], none)
        else
          (merged ++ [b, c], none)
    | none => (merged ++ [c], none)

/-- The merge pass of `_chunk_text`: short chunks accumulate in a buffer that is
joined with the next long chunk (if the buffer is still small) or emitted on its
own; a trailing buffer is emitted at the end. -/
def mergeChunks (cfg : ChunkCfg) (l : List Iv) : List Iv :=
  let st := l.foldl (mergeStep cfg) ([], none)
  match st.2 with
  | some b => st.1 ++ [b]
  | none => st.1

/-- Faithful to `_chunk_text`: strip the body, window it, merge short fragments,
drop final chunks shorter than `CHUNK_MIN_KEEP`. -/
def chunkTextIv (cfg : ChunkCfg) (s0 : Str) : List Iv :=
  let s := pyStrip s0
  if s = [] then []
  else (mergeChunks cfg (rawChunks cfg s)).filter (fun c => cfg.minKeep ≤ c.t.length)

/-- The chunk texts, exactly the Python return value of `_chunk_text`. -/
def chunkText (cfg : ChunkCfg) (s0 : Str) : List Str := (chunkTextIv cfg s0).map Iv.t

/-! ## Vector mean (`_avg_vectors`) -/

/-- Faithful to `_avg_vectors`: `dim = len(vecs[0])`; accumulate componentwise
(for `i in range(dim)`) then divide by `len(vecs)`.  Out-of-range access is 0
(the Python code assumes uniform dimensions and would raise otherwise). -/
def avgVectors (vecs : List (List ℚ)) : List ℚ :=
  match vecs with
  | [] => []
  | v0 :: _ =>
      let dim := v0.length
      let acc := vecs.foldl
        (fun acc v => (List.range dim).map (fun i => acc.getD i 0 + v.getD i 0))
        (List.replicate dim (0 : ℚ))
      acc.map (fun x => x / (vecs.length : ℚ))

/-- Sum of squares of a vector (the square of its Euclidean norm). -/
def sumSq (v : List ℚ) : ℚ := (v.map (fun x => x * x)).sum

/-! ## Store model and the backup-router ingest (`ingest_gmail` in
`api/backup/routers/ingest.py`)

The relational store is a record of row lists; `gen_random_uuid()` is
modelled by a fresh-id counter.  External calls are parameters: `extraTags`
stands for the `_oai_tags` result (that helper returns `[]` on every failure
and never raises), `embedF` for `_embed_with_retry` (which raises after its
retry budget — modelled as `Except`).  The `with conn` block of psycopg2
commits on normal exit and rolls back when an exception escapes; the
roll-back is the `.error` branch of `ingestGmail`. -/

structure DocRow where
  id : Nat
  sourceId : Nat
  externalId : Str
  title : Option Str
  preview : Option Str
  plainText : Str
  ts : Int
  sourceUrl : Option Str
  contentHash : Str
  embedding : Option (List ℚ)
deriving DecidableEq, Repr

structure ChunkRow where
  documentId : Nat
  ord : Nat
  text : Str
  embedding : List ℚ
deriving DecidableEq, Repr

structure Store where
  nextId : Nat
  sources : List (Str × Str × Nat)
  documents : List DocRow
  chunks : List ChunkRow
  tags : List (Nat × Str)
  documentTags : List (Nat × Nat)
deriving DecidableEq, Repr

/-- The ingest request body (`GmailIngest`); `labelIds` models
`metadata["labelIds"]` when it is present as a list. -/
structure GmailReq where
  accountId : Str
  externalId : Str
  subject : Option Str
  snippet : Option Str
  plainText : Str
  ts : Int
  tags : Option (List Str)
  sourceUrl : Option Str
  labelIds : Option (List Str)
  contentHash : Option Str
deriving DecidableEq, Repr

structure IngestResp where
  ok : Bool
  documentId : Nat
  dedup : Bool
  nChunks : Nat
  tags : Option (List Str)
deriving DecidableEq, Repr

inductive IngestErr where
  | emptyPlainText
  | embeddingError
deriving DecidableEq, Repr

def gmailS : Str := codes "gmail"

/-- `_upsert_source`: `ON CONFLICT (provider, account_id) DO UPDATE SET
account_id = EXCLUDED.account_id` rewrites the conflicting row with its own
key value, so the hit branch leaves the table unchanged. -/
def upsertSource (st : Store) (provider account : Str) : Store × Nat :=
  match st.sources.find? (fun r => r.1 = provider ∧ r.2.1 = account) with
  | some r => (st, r.2.2)
  | none =>
      ({ st with
          nextId := st.nextId + 1,
          sources := st.sources ++ [(provider, account, st.nextId)] }, st.nextId)

/-- The document upsert by `(source_id, external_id)`: on conflict update
title/preview/body/ts/url/content_hash, else insert a fresh row. -/
def upsertDocument (st : Store) (sid : Nat) (req : GmailReq) (h : Str) : Store × Nat :=
  match st.documents.find? (fun d => d.sourceId = sid ∧ d.externalId = req.externalId) with
  | some d =>
      ({ st with documents := st.documents.map (fun r =>
          if r.id = d.id then
            { r with
                title := req.subject, preview := req.snippet, plainText := req.plainText,
                ts := req.ts, sourceUrl := req.sourceUrl, contentHash := h }
          else r) }, d.id)
  | none =>
      ({ st with
          nextId := st.nextId + 1,
          documents := st.documents ++
            [{ id := st.nextId, sourceId := sid, externalId := req.externalId,
               title := req.subject, preview := req.snippet, plainText := req.plainText,
               ts := req.ts, sourceUrl := req.sourceUrl, contentHash := h,
               embedding := none }] }, st.nextId)

/-- `_ensure_tag`: insert unless a case-insensitive duplicate exists, then look
the id up case-insensitively; empty names yield `None`. -/
def ensureTag (st : Store) (name : Str) : Store × Option Nat :=
  if name = [] then (st, none)
  else
    let st1 :=
      if st.tags.any (fun r => lowerStr r.2 = lowerStr name) then st
      else { st with nextId := st.nextId + 1, tags := st.tags ++ [(st.nextId, name)] }
    (st1, (st1.tags.find? (fun r => lowerStr r.2 = lowerStr name)).map (·.1))

/-- `_attach_tag`: insert the join row unless it exists. -/
def attachTag (st : Store) (docId tagId : Nat) : Store :=
  if st.documentTags.contains (docId, tagId) then st
  else { st with documentTags := st.documentTags ++ [(docId, tagId)] }

/-- Step 4 of the ingest: ensure and attach every tag name. -/
def attachAll (st : Store) (docId : Nat) (names : List Str) : Store :=
  names.foldl (fun s name =>
    match ensureTag s name with
    | (s1, some tid) => attachTag s1 docId tid
    | (s1, none) => s1) st

/-- The content hash the ingest uses: the client value if supplied, else
`_compute_hash(subject or "", plain_text, account_id, external_id)`. -/
def reqHash (req : GmailReq) : Str :=
  match req.contentHash with
  | some h => h
  | none => computeHash (req.subject.getD []) req.plainText req.accountId req.externalId

/-- The combined client tags: `doc.tags` plus lowercased `metadata["labelIds"]`,
normalized. -/
def reqTags (req : GmailReq) : List Str :=
  normalizeTags ((req.tags.getD []) ++ (req.labelIds.getD []).map lowerStr)

/-- The transaction body of `ingest_gmail` after the empty-body check: source
upsert, early dedup, document upsert, tag attach, chunking, embedding, chunk
replace, and document-vector update, in source order. -/
def ingestTxn (cfg : ChunkCfg) (req : GmailReq) (extraTags : List Str)
    (embedF : List Str → Except Unit (List (List ℚ))) (st0 : Store) :
    Except IngestErr (Store × IngestResp) :=
  let h := reqHash req
  let tags1 := reqTags req
  let p1 := upsertSource st0 gmailS req.accountId
  let st1 := p1.1
  let sid := p1.2
  match st1.documents.find? (fun d => d.sourceId = sid ∧ d.contentHash = h) with
  | some d =>
      .ok (st1, { ok := true, documentId := d.id, dedup := true, nChunks := 0, tags := none })
  | none =>
      let p2 := upsertDocument st1 sid req h
      let st2 := p2.1
      let docId := p2.2
      let tags2 := if extraTags ≠ [] then normalizeTags (tags1 ++ extraTags) else tags1
      let st3 := attachAll st2 docId tags2
      let chs := chunkText cfg req.plainText
      if chs ≠ [] then
        match embedF chs with
        | .error _ => .error .embeddingError
        | .ok embs =>
            if embs = [] ∨ embs.length ≠ chs.length then .error .embeddingError
            else
              let st4 := { st3 with chunks :=
                (st3.chunks.filter (fun c : ChunkRow => c.documentId ≠ docId)) ++
                  (List.zipWith (fun (i : Nat) (tv : Str × List ℚ) => ChunkRow.mk docId i tv.1 tv.2)
                    (List.range chs.length) (chs.zip embs)) }
              let st5 := { st4 with documents := st4.documents.map (fun r : DocRow =>
                if r.id = docId then { r with embedding := some (avgVectors embs) } else r) }
              .ok (st5, { ok := true, documentId := docId, dedup := false,
                          nChunks := chs.length, tags := some tags2 })
      else
        let seed0 := pyStrip (req.subject.getD [])
        let seed := if seed0 = [] then
            pyStrip (match req.snippet with
              | some sn => sn
              | none => req.plainText.take 300)
          else seed0
        if seed = [] then
          .ok (st3, { ok := true, documentId := docId, dedup := false,
                      nChunks := 0, tags := some tags2 })
        else
          match embedF [seed] with
          | .error _ => .error .embeddingError
          | .ok [] => .error .embeddingError
          | .ok (v :: _) =>
              let st4 := { st3 with documents := st3.documents.map (fun r =>
                if r.id = docId then { r with embedding := some v } else r) }
              .ok (st4, { ok := true, documentId := docId, dedup := false,
                          nChunks := 0, tags := some tags2 })

/-- `ingest_gmail`: reject empty bodies with 400, then run the transaction;
on success the `with conn` block commits, on failure it rolls back, leaving
the store as it was. -/
def ingestGmail (cfg : ChunkCfg) (req : GmailReq) (extraTags : List Str)
    (embedF : List Str → Except Unit (List (List ℚ))) (st0 : Store) :
    Store × Except IngestErr IngestResp :=
  if pyStrip req.plainText = [] then (st0, .error .emptyPlainText)
  else
    match ingestTxn cfg req extraTags embedF st0 with
    | .ok (st, resp) => (st, .ok resp)
    | .error e => (st0, .error e)

/-! ## Hybrid search (`search` in `api/routers/search.py`)

The SQL pipeline (CTEs `scored → ranked → dedup → ordered`, then
`LIMIT/OFFSET`) is modelled over a candidate table.  Postgres internals are
parameters of the embedding: `lexMatch` stands for `q_fts @@ doc_fts`,
`bm25` for `ts_rank_cd(…, 32)`, `dist` for the `<=>` cosine-distance
operator, and `qvec` for the `_qvec(q)` query embedding (`none` when the
client is missing or the call failed).  The tag-filter join is modelled as
the row-level EXISTS it amounts to after deduplication. -/

structure Cand where
  id : Str
  title : Option Str
  preview : Option Str
  ts : Int
  provider : Str
  sourceUrl : Option Str
  plainText : Str
  embedding : Option (List ℚ)
  lexMatch : Bool
  bm25 : ℚ
  tagNames : List Str
deriving DecidableEq, Repr

structure SearchReq where
  query : Str
  topK : Int
  offset : Int
  tags : List Str
  boostTags : List Str
  dateFrom : Option Int
  dateTo : Option Int
  decayDays : Int
deriving DecidableEq, Repr

/-- A row of the `ranked` CTE: the candidate with its component scores. -/
structure Scored where
  c : Cand
  vec : ℚ
  tagScore : ℚ
  decay : ℚ
  final : ℚ
deriving DecidableEq, Repr

/-- `vec_score`: `0.0` when there is no query vector, else
`CASE WHEN d.embedding IS NULL THEN 0.0 ELSE 1.0 - (d.embedding <=> qvec) END`. -/
def vecScoreOf (dist : List ℚ → List ℚ → ℚ) (qvec : Option (List ℚ)) (c : Cand) : ℚ :=
  match qvec with
  | none => 0
  | some qv =>
      match c.embedding with
      | none => 0
      | some e => 1 - dist e qv

/-- `decay_score`: `GREATEST(0, 1 - extract(epoch from now() - ts) / (86400·decay_days))`. -/
def decayScoreOf (now : Int) (dd : Nat) (c : Cand) : ℚ :=
  max 0 (1 - ((now - c.ts : Int) : ℚ) / (60 * 60 * 24 * (dd : ℚ)))

/-- `tag_score`: `0` when `boost_tags` is NULL (empty list in the request),
else `1` iff some attached tag matches case-insensitively. -/
def tagScoreOf (boost : List Str) (c : Cand) : ℚ :=
  if boost = [] then 0
  else if c.tagNames.any (fun t => boost.contains (lowerStr t)) then 1 else 0

/-- The final score: `0.55·bm25 + 0.35·vec + 0.07·tag + 0.03·decay`. -/
def finalScoreOf (bm25 vec tag decay : ℚ) : ℚ :=
  (55 / 100) * bm25 + (35 / 100) * vec + (7 / 100) * tag + (3 / 100) * decay

/-- The `scored` CTE WHERE clause: date window (inclusive) and the hard tag
filter (`lower(t.name) = ANY(tags)` via the join). -/
def candFilter (tags : List Str) (dateFrom dateTo : Option Int) (c : Cand) : Bool :=
  (match dateFrom with | some a => a ≤ c.ts | none => true) &&
  (match dateTo with | some b => c.ts ≤ b | none => true) &&
  (tags.isEmpty || c.tagNames.any (fun t => tags.contains (lowerStr t)))

/-- The `ranked` CTE: score every filtered candidate and keep those with
`q_fts @@ doc_fts OR vec_score > 0`. -/
def rankedRows (dist : List ℚ → List ℚ → ℚ) (qvec : Option (List ℚ)) (now : Int)
    (req : SearchReq) (cands : List Cand) : List Scored :=
  let tags := req.tags.map lowerStr
  let boost := req.boostTags.map lowerStr
  let dd := (max 1 (min 30 req.decayDays)).toNat
  ((cands.filter (candFilter tags req.dateFrom req.dateTo)).map (fun c =>
    let vec := vecScoreOf dist qvec c
    let tag := tagScoreOf boost c
    let dec := decayScoreOf now dd c
    Scored.mk c vec tag dec (finalScoreOf c.bm25 vec tag dec))).filter
    (fun r => r.c.lexMatch || decide (0 < r.vec))

/-- `PARTITION BY COALESCE(title,''), COALESCE(preview,'')`. -/
def dedupKey (c : Cand) : Str × Str := (c.title.getD [], c.preview.getD [])

/-- The window / final `ORDER BY`: `final DESC, ts DESC, length(plain_text) ASC`,
as a total boolean order. -/
def ordLe (x y : Scored) : Bool :=
  decide (y.final < x.final) ||
  (decide (x.final = y.final) &&
    (decide (y.c.ts < x.c.ts) ||
      (decide (x.c.ts = y.c.ts) && decide (x.c.plainText.length ≤ y.c.plainText.length))))

/-- `x` sorts strictly before `y` under the window `ORDER BY`. -/
def ordLt (x y : Scored) : Bool := ordLe x y && !ordLe y x

/-- The `ROW_NUMBER() = 1` representative of one partition: the partition row
that sorts first (among full ties the first-scanned row stands in for the
unspecified SQL choice). -/
def bestOf : List Scored → Option Scored
  | [] => none
  | x :: xs => some (xs.foldl (fun b y => if ordLt y b then y else b) x)

/-- The `dedup`/`WHERE rn = 1` CTE: one representative per `(title, preview)`. -/
def dedupRows (l : List Scored) : List Scored :=
  ((l.map (fun r => dedupKey r.c)).dedup).filterMap
    (fun k => bestOf (l.filter (fun r => dedupKey r.c = k)))

/-- SQL floats as delivered to the Python layer. -/
inductive PgFloat where
  | fin (q : ℚ)
  | nan
  | posInf
  | negInf
  | null
deriving DecidableEq, Repr

/-- The Python coercion on each fetched row:
`if _score is None or not math.isfinite(float(_score)): _score = 0.0`. -/
def coerceScore : PgFloat → ℚ
  | .fin q => q
  | .nan => 0
  | .posInf => 0
  | .negInf => 0
  | .null => 0

structure Hit where
  row : Scored
  score : ℚ
deriving DecidableEq, Repr

structure SearchResp where
  hits : List Hit
  total : Nat
  hasMore : Bool
  nextOffset : Option Int
deriving DecidableEq, Repr

/-- The `ordered` CTE: deduplicated rows under the final `ORDER BY`
(`COUNT(*) OVER ()` is this list's length). -/
def sqlRows (dist : List ℚ → List ℚ → ℚ) (qvec : Option (List ℚ)) (now : Int)
    (req : SearchReq) (cands : List Cand) : List Scored :=
  (dedupRows (rankedRows dist qvec now req cands)).mergeSort ordLe

/-- The Python layer: `LIMIT %(top_k)s OFFSET %(offset)s` with the clamped
parameters, the per-row score coercion, `total = _total or total` (0 when no
row was fetched), `seen = req.offset + len(hits)`, `has_more`, `next_offset`. -/
def assembleResp (req : SearchReq) (ordered : List Scored) : SearchResp :=
  let page := (ordered.drop (max 0 req.offset).toNat).take (max 1 (min 200 req.topK)).toNat
  let hits := page.map (fun r => Hit.mk r (coerceScore (.fin r.final)))
  let total := if hits.isEmpty then 0 else ordered.length
  let seen : Int := req.offset + hits.length
  let hasMore := decide (seen < (total : Int))
  { hits := hits, total := total, hasMore := hasMore,
    nextOffset := if hasMore then some seen else none }

/-- The whole `/search` handler on a candidate table: empty-query early
return, else the SQL pipeline followed by the response assembly. -/
def searchModel (dist : List ℚ → List ℚ → ℚ) (qvec : Option (List ℚ)) (now : Int)
    (req : SearchReq) (cands : List Cand) : SearchResp :=
  if pyStrip req.query = [] then
    { hits := [], total := 0, hasMore := false, nextOffset := none }
  else assembleResp req (sqlRows dist qvec now req cands)

/-! ## Intent router (`api/agents/intent_llm.py`)

`_validate_and_normalize_result` post-processes the JSON object returned by
the chat model.  JSON values are modelled with explicit presence/validity:
`limit`/`date_window_days` are `none` (absent), `some none` (present but not
coercible by `int()`), or `some (some n)`; string fields are `none` when
absent and carry Python truthiness (the empty string is falsy). -/

structure RawParams where
  sender : Option Str
  domain : Option Str
  limit : Option (Option Int)
  dateWindowDays : Option (Option Int)
  language : Option Str
  keywords : Option (List Str)
deriving DecidableEq, Repr

structure RawResult where
  intent : Option Str
  params : RawParams
  confidence : Option ℚ
deriving DecidableEq, Repr

structure NormParams where
  sender : Option Str
  domain : Option Str
  limit : Int
  dateWindowDays : Option Int
  language : Option Str
  keywords : Option (List Str)
deriving DecidableEq, Repr

structure RouterOut where
  intent : Option Str
  params : NormParams
  confidence : ℚ
deriving DecidableEq, Repr

/-- Python truthiness of an optional string. -/
def truthy : Option Str → Bool
  | some s => !s.isEmpty
  | none => false

/-- The `domain` normalization: `str(v).lower().strip()` then drop one
leading `@`. -/
def normDomain (s : Str) : Str :=
  let d := pyStrip (lowerStr s)
  if d.head? = some 64 then d.tail else d

/-- Faithful to `_validate_and_normalize_result`: whitelist the intent (the
falsy empty-string intent skips the check), clamp confidence into `[0,1]`,
lowercase `sender`, strip `@` from `domain`, clamp `limit` into `[1,50]`
(default 5), clamp `date_window_days` into `[1,365]` (skipped when absent or
unparseable), keep `language` only in `{tr, en}`, trim `keywords`. -/
def validateResult (r : RawResult) (availableAgents : List Str) : RouterOut :=
  let conf0 := r.confidence.getD (1 / 2)
  let whitelistMiss := truthy r.intent && !(availableAgents.contains (r.intent.getD []))
  let intent := if whitelistMiss then none else r.intent
  let conf1 := if whitelistMiss then (0 : ℚ) else conf0
  let confidence := max 0 (min 1 conf1)
  let sender :=
    if truthy r.params.sender then some (pyStrip (lowerStr (r.params.sender.getD []))) else none
  let domain :=
    if truthy r.params.domain then some (normDomain (r.params.domain.getD [])) else none
  let limit : Int :=
    match r.params.limit with
    | some (some n) => max 1 (min 50 n)
    | some none => 5
    | none => 5
  let dateWindowDays : Option Int :=
    match r.params.dateWindowDays with
    | some (some n) => some (max 1 (min 365 n))
    | some none => none
    | none => none
  let language :=
    match r.params.language with
    | some l => if l = codes "tr" ∨ l = codes "en" then some l else none
    | none => none
  let keywords :=
    match r.params.keywords with
    | some kws =>
        let ks := (kws.map pyStrip).filter (fun k => !k.isEmpty)
        if ks.isEmpty then none else some ks
    | none => none
  { intent := intent,
    params := { sender := sender, domain := domain, limit := limit,
                dateWindowDays := dateWindowDays, language := language,
                keywords := keywords },
    confidence := confidence }

/-! ### Regex fallback (`_fallback_intent_detection`)

The regex patterns are executed by hand over the lowercased code-point
list.  `\w`/`\s`/`\d` are the ASCII classes (the texts considered here are
ASCII).  In every pattern the greedy `\w+`/`\d+`/`\s+` runs are followed by
a character outside their class, so the maximal-run reading below is exactly
the backtracking semantics of `re.search`, and scanning positions left to
right gives the leftmost match. -/

def wordChar (n : Nat) : Bool :=
  (48 ≤ n && n ≤ 57) || (65 ≤ n && n ≤ 90) || (97 ≤ n && n ≤ 122) || n = 95

def digitChar (n : Nat) : Bool := 48 ≤ n && n ≤ 57

/-- Is `pre` a prefix of `l`? -/
def isPref (pre l : Str) : Bool := l.take pre.length = pre

/-- Require at least one whitespace character, then skip the whole run. -/
def skipWs1 : Str → Option Str
  | c :: rest => if isSpace c then some (rest.dropWhile isSpace) else none
  | [] => none

/-- Leftmost application of a positional matcher, like `re.search`. -/
def searchPat (m : Str → Option Str) : Str → Option Str
  | [] => m []
  | c :: rest =>
      match m (c :: rest) with
      | some g => some g
      | none => searchPat m rest

/-- `(\w+)<apostrophe>SUFFIX\s+gelen` at one position (`SUFFIX` is `dan` or `den`). -/
def pDanAt (suffix : Str) (l : Str) : Option Str :=
  let w := l.takeWhile wordChar
  let r1 := l.dropWhile wordChar
  if w.isEmpty then none
  else if isPref (39 :: suffix) r1 then
    match skipWs1 (r1.drop (suffix.length + 1)) with
    | some r2 => if isPref (codes "gelen") r2 then some w else none
    | none => none
  else none

/-- `from\s+(\w+)` at one position. -/
def pFromAt (l : Str) : Option Str :=
  if isPref (codes "from") l then
    match skipWs1 (l.drop 4) with
    | some r =>
        let w := r.takeWhile wordChar
        if w.isEmpty then none else some w
    | none => none
  else none

/-- `(\w+)\s+LIT` at one position, for one of the literals in `lits`. -/
def pWordThenAt (lits : List Str) (l : Str) : Option Str :=
  let w := l.takeWhile wordChar
  let r1 := l.dropWhile wordChar
  if w.isEmpty then none
  else
    match skipWs1 r1 with
    | some r2 => if lits.any (fun lit => isPref lit r2) then some w else none
    | none => none

/-- The five `sender_patterns`, tried in source order with the first match
winning (`break`). -/
def senderSearch (tlow : Str) : Option Str :=
  match searchPat (pDanAt (codes "dan")) tlow with
  | some s => some s
  | none =>
      match searchPat (pDanAt (codes "den")) tlow with
      | some s => some s
      | none =>
          match searchPat pFromAt tlow with
          | some s => some s
          | none =>
              match searchPat (pWordThenAt [codes "email"]) tlow with
              | some s => some s
              | none => searchPat (pWordThenAt [codes "emailleri", codes "mailler"]) tlow

/-- `LIT\s+(\d+)` at one position. -/
def pLitNumAt (lit : Str) (l : Str) : Option Str :=
  if isPref lit l then
    match skipWs1 (l.drop lit.length) with
    | some r =>
        let d := r.takeWhile digitChar
        if d.isEmpty then none else some d
    | none => none
  else none

/-- `(\d+)\s+tane` at one position. -/
def pNumTaneAt (l : Str) : Option Str :=
  let d := l.takeWhile digitChar
  let r1 := l.dropWhile digitChar
  if d.isEmpty then none
  else
    match skipWs1 r1 with
    | some r2 => if isPref (codes "tane") r2 then some d else none
    | none => none

/-- The three `limit_patterns`, tried in source order. -/
def limitSearch (tlow : Str) : Option Str :=
  match searchPat (pLitNumAt (codes "son")) tlow with
  | some d => some d
  | none =>
      match searchPat (pLitNumAt (codes "last")) tlow with
      | some d => some d
      | none => searchPat pNumTaneAt tlow

/-- Python `int()` on a digit string. -/
def digitsToNat (l : Str) : Nat := l.foldl (fun acc c => acc * 10 + (c - 48)) 0

/-- The `email_keywords` list of `_fallback_intent_detection`. -/
def emailKeywords : List Str :=
  [codes "email", codes "emailleri", codes "e-mail", codes "posta",
   codes "mesaj", codes "mailler", codes "mail", codes "mails"]

/-- Substring containment, as Python `keyword in text_lower`. -/
def containsSub (needle : Str) : Str → Bool
  | [] => needle.isEmpty
  | c :: rest => isPref needle (c :: rest) || containsSub needle rest

structure FallbackParams where
  sender : Option Str
  limit : Option Nat
deriving DecidableEq, Repr

structure FallbackOut where
  intent : Option Str
  params : FallbackParams
  confidence : ℚ
deriving DecidableEq, Repr

/-- Faithful to `_fallback_intent_detection` in `api/agents/intent_llm.py`:
require an email cue word, extract a sender with the first matching pattern,
and return `search.latest_from` (there is no topic detection and no
`search.find` branch in this module); otherwise a null intent. -/
def fallbackIntentDetection (text : Str) : FallbackOut :=
  let tlow := lowerStr text
  if emailKeywords.any (fun k => containsSub k tlow) then
    match senderSearch tlow with
    | some s =>
        let limit :=
          match limitSearch tlow with
          | some d => min 50 (max 1 (digitsToNat d))
          | none => 5
        { intent := some (codes "search.latest_from"),
          params := { sender := some s, limit := some limit }, confidence := 7 / 10 }
    | none => { intent := none, params := { sender := none, limit := none }, confidence := 0 }
  else { intent := none, params := { sender := none, limit := none }, confidence := 0 }

/-- Modelled from the spec: the claim reads the router spec's fallback topic
cue `ile ilgili|hakkında|about|konu:|topic:` as "a topic is detected"; this
predicate holds when one of those cues occurs in the lowercased text
followed by a nonempty phrase character. -/
def specTopicDetected (tlow : Str) : Bool :=
  [codes "ile ilgili ", codes "hakkında ", codes "about ", codes "konu:", codes "topic:"].any
    (fun k => containsSub k tlow)

/-! ## App-router ingest (`api/app/routers/ingest.py`)

This router runs on a raw asyncpg connection: every statement commits on
its own, there is no enclosing transaction. -/

/-- The app router content hash (`EmailProcessor.normalize_email`):
`sha256(subject + cleaned_body)` — no separators, no account or message id. -/
def appContentHash (subject cleanedBody : Str) : Str :=
  sha256hex (subject ++ cleanedBody)

/-- Faithful to `EmailProcessor.process_chunks`: for each chunk, embed and
insert; the insert commits immediately, and any per-chunk failure is caught,
printed, and skipped (`continue`), so the loop never rolls anything back. -/
def processChunks (embed1 : Str → Except Unit (List ℚ)) (itemId : Nat)
    (chs : List (Nat × Str)) (db : List ChunkRow) : List ChunkRow × Nat :=
  chs.foldl (fun st c =>
    match embed1 c.2 with
    | .ok v => (st.1 ++ [ChunkRow.mk itemId c.1 c.2 v], st.2 + 1)
    | .error _ => st) (db, 0)

/-- The per-email store/counter effects recorded while processing one email
of a batch (item ids appended, counters bumped) before control returns to
the loop — present both on success and on a mid-email failure. -/
structure BatchDelta where
  itemIds : List Nat
  insertedItems : Nat
  updatedItems : Nat
  insertedChunks : Nat
  skippedEmbedding : Nat
deriving DecidableEq, Repr

/-- The outcome of processing one email: completion (`processed += 1`) or an
exception caught by the per-email handler, which records one error message
and continues. -/
inductive EmailOutcome where
  | done (delta : BatchDelta)
  | failed (delta : BatchDelta) (err : Str)
deriving DecidableEq, Repr

structure BatchResp where
  ok : Bool
  processed : Nat
  insertedItems : Nat
  updatedItems : Nat
  insertedChunks : Nat
  skippedEmbedding : Nat
  itemIds : List Nat
  errors : List Str
deriving DecidableEq, Repr

def applyDelta (r : BatchResp) (d : BatchDelta) : BatchResp :=
  { r with
      itemIds := r.itemIds ++ d.itemIds,
      insertedItems := r.insertedItems + d.insertedItems,
      updatedItems := r.updatedItems + d.updatedItems,
      insertedChunks := r.insertedChunks + d.insertedChunks,
      skippedEmbedding := r.skippedEmbedding + d.skippedEmbedding }

def batchInit : BatchResp :=
  { ok := true, processed := 0, insertedItems := 0, updatedItems := 0,
    insertedChunks := 0, skippedEmbedding := 0, itemIds := [], errors := [] }

/-- Faithful to the batch loop of the app `ingest_gmail` (lines 610–655):
each email is processed in turn, a failure appends one error message and
`continue`s; after the loop, `ok` is set to `len(errors) < len(emails)`
when any error occurred. -/
def batchStep {ε : Type} (step : ε → EmailOutcome) (acc : BatchResp) (e : ε) : BatchResp :=
  match step e with
  | .done d => { applyDelta acc d with processed := acc.processed + 1 }
  | .failed d err => { applyDelta acc d with errors := acc.errors ++ [err] }

def ingestBatch {ε : Type} (step : ε → EmailOutcome) (emails : List ε) : BatchResp :=
  let r := emails.foldl (batchStep step) batchInit
  if !r.errors.isEmpty then { r with ok := r.errors.length < emails.length } else r

/-- Whether processing one email fails. -/
def stepFails {ε : Type} (step : ε → EmailOutcome) (e : ε) : Bool :=
  match step e with
  | .done _ => false
  | .failed _ _ => true

/-! # Theorems -/

/-! ## Generic helper lemmas -/

theorem lowerN_idem (n : Nat) : lowerN (lowerN n) = lowerN n := by
  unfold lowerN
  split
  · split <;> omega
  · rfl

theorem lowerStr_idem (s : Str) : lowerStr (lowerStr s) = lowerStr s := by
  simp only [lowerStr, List.map_map]
  exact List.map_congr_left (fun n _ => lowerN_idem n)

theorem mem_pyStrip {c : Nat} {s : Str} (h : c ∈ pyStrip s) : c ∈ s := by
  unfold pyStrip at h
  rw [List.mem_reverse] at h
  have h2 := (List.dropWhile_sublist isSpace).mem h
  rw [List.mem_reverse] at h2
  exact (List.dropWhile_sublist isSpace).mem h2

/-- A string all of whose characters are fixed by `lowerN` is fixed by `lowerStr`. -/
theorem lowerStr_fixed {s : Str} (h : ∀ c ∈ s, lowerN c = c) : lowerStr s = s := by
  have h2 := List.map_congr_left (f := lowerN) (g := id) (l := s) (by simpa using h)
  simpa using h2

theorem lowerStr_pyStrip_lowerStr (s : Str) :
    lowerStr (pyStrip (lowerStr s)) = pyStrip (lowerStr s) := by
  refine lowerStr_fixed (fun c hc => ?_)
  have hmem : c ∈ lowerStr s := mem_pyStrip hc
  obtain ⟨n, _, rfl⟩ := List.mem_map.mp hmem
  exact lowerN_idem n

theorem length_filter_partition {α : Type} (p : α → Bool) (l : List α) :
    (l.filter p).length + (l.filter (fun x => !(p x))).length = l.length := by
  induction l with
  | nil => simp
  | cons a l ih => by_cases h : p a <;> simp [List.filter, h] <;> omega

/-! ## C3 — content hash -/

/-- C3 counterexample: at the explicit input of four empty parts,
`_compute_hash` (which appends 0x1E after every part) differs from the hex
SHA-256 of the parts joined with 0x1E only between consecutive parts, so the
claim as stated is false. -/
theorem C3_counterexample :
    computeHash [] [] [] [] ≠ specBetweenHash [] [] [] [] := by decide

/-- C3 (amended): the computed content_hash equals the hex SHA-256 of the
four parts each FOLLOWED by the byte 0x1E (subject, 0x1E, plain_text, 0x1E,
account_id, 0x1E, external_id, 0x1E — a trailing separator included), and
the function is deterministic: identical inputs always yield the same hex
string. -/
theorem C3_amended (s p a e : Str) :
    computeHash s p a e = sha256hex (s ++ [30] ++ p ++ [30] ++ a ++ [30] ++ e ++ [30]) ∧
    (∀ s2 p2 a2 e2, s = s2 → p = p2 → a = a2 → e = e2 →
      computeHash s p a e = computeHash s2 p2 a2 e2) := by
  refine ⟨?_, ?_⟩
  · simp [computeHash, List.append_assoc]
  · rintro s2 p2 a2 e2 rfl rfl rfl rfl
    rfl

/-- C3 witness: the amended theorem applied at a concrete input. -/
theorem C3_witness :
    computeHash (codes "a") (codes "b") (codes "c") (codes "d") =
      sha256hex (codes "a" ++ [30] ++ codes "b" ++ [30] ++ codes "c" ++ [30] ++
        codes "d" ++ [30]) ∧
    computeHash (codes "a") (codes "b") (codes "c") (codes "d") =
      computeHash (codes "a") (codes "b") (codes "c") (codes "d") :=
  ⟨(C3_amended (codes "a") (codes "b") (codes "c") (codes "d")).1,
   (C3_amended (codes "a") (codes "b") (codes "c") (codes "d")).2
     (codes "a") (codes "b") (codes "c") (codes "d") rfl rfl rfl rfl⟩

/-! ## C2 — single-transaction ingest -/

/-- C2 counterexample: in the app router (`EmailProcessor.process_chunks`),
with two chunks whose first embedding call fails and second succeeds, the
run completes normally having inserted exactly one chunk row — a visible,
non-empty strict subset of the new chunk set, with no rollback — so the
claim that all ingest writes happen in one transaction is false at this
explicit input. -/
theorem C2_counterexample :
    (processChunks (fun t => if t = codes "a" then .error () else .ok [1]) 7
        [(0, codes "a"), (1, codes "b")] []).2 = 1 ∧
    (processChunks (fun t => if t = codes "a" then .error () else .ok [1]) 7
        [(0, codes "a"), (1, codes "b")] []).1 = [ChunkRow.mk 7 1 (codes "b") [1]] ∧
    (processChunks (fun t => if t = codes "a" then .error () else .ok [1]) 7
        [(0, codes "a"), (1, codes "b")] []).1 ≠ [] ∧
    (processChunks (fun t => if t = codes "a" then .error () else .ok [1]) 7
        [(0, codes "a"), (1, codes "b")] []).1.length < 2 := by
  refine ⟨rfl, ?_, ?_, by decide⟩ <;> simp [processChunks, codes]

/-- C2 (amended): in the backup router (`ingest_gmail` in
`api/backup/routers/ingest.py`) all store writes for one document happen in
a single transaction — if any step after the early-dedup check fails, the
store is observably unchanged; the app router (`EmailProcessor.process_chunks`)
instead inserts each chunk in its own implicit transaction and skips failing
chunks, so there a strict subset of the new chunk set can remain visible. -/
theorem C2_amended (cfg : ChunkCfg) (req : GmailReq) (extra : List Str)
    (embedF : List Str → Except Unit (List (List ℚ))) (st0 : Store) :
    ∀ e, (ingestGmail cfg req extra embedF st0).2 = .error e →
      (ingestGmail cfg req extra embedF st0).1 = st0 := by
  intro e he
  unfold ingestGmail at he ⊢
  by_cases hb : pyStrip req.plainText = []
  · rw [if_pos hb]
  · rw [if_neg hb] at he ⊢
    cases htxn : ingestTxn cfg req extra embedF st0 with
    | ok v =>
        obtain ⟨st, resp⟩ := v
        rw [htxn] at he
        cases he
    | error e2 => rfl

/-- C2 witness: a concrete failing run of the backup ingest leaves the store
unchanged. -/
theorem C2_witness :
    (ingestGmail defaultCfg
        { accountId := codes "u", externalId := codes "m1", subject := none,
          snippet := none, plainText := codes "a body long enough to chunk",
          ts := 0, tags := none, sourceUrl := none, labelIds := none,
          contentHash := some (codes "h1") }
        [] (fun _ => .error ())
        { nextId := 0, sources := [], documents := [], chunks := [], tags := [],
          documentTags := [] }).1 =
      { nextId := 0, sources := [], documents := [], chunks := [], tags := [],
        documentTags := [] } :=
  C2_amended defaultCfg _ [] _ _ .embeddingError (by rfl)

/-! ## C10 — batch error handling -/

theorem batch_fold_spec {ε : Type} (step : ε → EmailOutcome) (l : List ε) :
    ∀ acc : BatchResp,
      (l.foldl (batchStep step) acc).errors.length =
          acc.errors.length + (l.filter (stepFails step)).length ∧
      (l.foldl (batchStep step) acc).processed =
          acc.processed + (l.filter (fun e => !(stepFails step e))).length ∧
      (l.foldl (batchStep step) acc).ok = acc.ok := by
  induction l with
  | nil => intro acc; simp
  | cons e l ih =>
      intro acc
      rw [List.foldl_cons]
      obtain ⟨h1, h2, h3⟩ := ih (batchStep step acc e)
      cases hstep : step e with
      | done d =>
          have hb : batchStep step acc e =
              { applyDelta acc d with processed := acc.processed + 1 } := by
            simp [batchStep, hstep]
          have hfil : (e :: l).filter (stepFails step) = l.filter (stepFails step) := by
            simp [List.filter_cons, stepFails, hstep]
          have hfil2 : (e :: l).filter (fun x => !(stepFails step x)) =
              e :: l.filter (fun x => !(stepFails step x)) := by
            simp [List.filter_cons, stepFails, hstep]
          rw [hb] at h1 h2 h3
          rw [hb, hfil, hfil2, h1, h2, h3]
          refine ⟨by simp [applyDelta], by simp [applyDelta]; omega, by simp [applyDelta]⟩
      | failed d err =>
          have hb : batchStep step acc e =
              { applyDelta acc d with errors := acc.errors ++ [err] } := by
            simp [batchStep, hstep]
          have hfil : (e :: l).filter (stepFails step) = e :: l.filter (stepFails step) := by
            simp [List.filter_cons, stepFails, hstep]
          have hfil2 : (e :: l).filter (fun x => !(stepFails step x)) =
              l.filter (fun x => !(stepFails step x)) := by
            simp [List.filter_cons, stepFails, hstep]
          rw [hb] at h1 h2 h3
          rw [hb, hfil, hfil2, h1, h2, h3]
          refine ⟨by simp [applyDelta]; omega, by simp [applyDelta], by simp [applyDelta]⟩

/-- C10: for every batch with at least one email, each per-email failure is
recorded as one entry of `errors` while processing continues (counts of
errors and processed emails partition the batch), and `ok` is true iff at
least one email was processed without error. -/
theorem C10_batch {ε : Type} (step : ε → EmailOutcome) (emails : List ε)
    (hne : emails ≠ []) :
    (ingestBatch step emails).errors.length =
        (emails.filter (stepFails step)).length ∧
    (ingestBatch step emails).processed =
        (emails.filter (fun e => !(stepFails step e))).length ∧
    (ingestBatch step emails).errors.length + (ingestBatch step emails).processed =
        emails.length ∧
    ((ingestBatch step emails).ok = true ↔ ∃ e ∈ emails, stepFails step e = false) := by
  obtain ⟨h1, h2, h3⟩ := batch_fold_spec step emails batchInit
  rw [show batchInit.errors = [] from rfl, List.length_nil, Nat.zero_add] at h1
  rw [show batchInit.processed = 0 from rfl, Nat.zero_add] at h2
  rw [show batchInit.ok = true from rfl] at h3
  have hpart := length_filter_partition (stepFails step) emails
  have hsucc_iff : 0 < (emails.filter (fun e => !(stepFails step e))).length ↔
      ∃ e ∈ emails, stepFails step e = false := by
    constructor
    · intro hpos
      obtain ⟨x, hx⟩ := List.exists_mem_of_length_pos hpos
      have hm := List.mem_filter.mp hx
      exact ⟨x, hm.1, by simpa using hm.2⟩
    · rintro ⟨x, hx, hfx⟩
      have hxf : x ∈ emails.filter (fun e => !(stepFails step e)) :=
        List.mem_filter.mpr ⟨hx, by simp [hfx]⟩
      exact List.length_pos.mpr (List.ne_nil_of_mem hxf)
  simp only [ingestBatch]
  by_cases hc : (emails.foldl (batchStep step) batchInit).errors.isEmpty
  · rw [if_neg (by simp [hc])]
    have hzero : (emails.filter (stepFails step)).length = 0 := by
      rw [← h1, List.isEmpty_iff.mp hc]
      rfl
    refine ⟨h1, h2, by omega, ?_⟩
    rw [h3]
    simp only [true_iff]
    have hlen : 0 < emails.length := List.length_pos.mpr hne
    exact hsucc_iff.mp (by omega)
  · rw [if_pos (by simp [hc])]
    refine ⟨?_, ?_, ?_, ?_⟩
    · show (emails.foldl (batchStep step) batchInit).errors.length = _
      exact h1
    · show (emails.foldl (batchStep step) batchInit).processed = _
      exact h2
    · show (emails.foldl (batchStep step) batchInit).errors.length +
        (emails.foldl (batchStep step) batchInit).processed = _
      omega
    · show decide ((emails.foldl (batchStep step) batchInit).errors.length < emails.length)
        = true ↔ _
      rw [decide_eq_true_iff, h1]
      constructor
      · intro hlt
        exact hsucc_iff.mp (by omega)
      · intro hex
        have := hsucc_iff.mpr hex
        omega

/-- C10 witness: the theorem applied to a concrete two-email batch with one
failure. -/
theorem C10_witness :
    (ingestBatch (fun b : Bool =>
        if b then EmailOutcome.done ⟨[], 0, 0, 0, 0⟩
        else EmailOutcome.failed ⟨[], 0, 0, 0, 0⟩ (codes "err")) [true, false]).errors.length =
      ([true, false].filter (stepFails (fun b : Bool =>
        if b then EmailOutcome.done ⟨[], 0, 0, 0, 0⟩
        else EmailOutcome.failed ⟨[], 0, 0, 0, 0⟩ (codes "err")))).length ∧
    (ingestBatch (fun b : Bool =>
        if b then EmailOutcome.done ⟨[], 0, 0, 0, 0⟩
        else EmailOutcome.failed ⟨[], 0, 0, 0, 0⟩ (codes "err")) [true, false]).processed =
      ([true, false].filter (fun e => !(stepFails (fun b : Bool =>
        if b then EmailOutcome.done ⟨[], 0, 0, 0, 0⟩
        else EmailOutcome.failed ⟨[], 0, 0, 0, 0⟩ (codes "err")) e))).length ∧
    (ingestBatch (fun b : Bool =>
        if b then EmailOutcome.done ⟨[], 0, 0, 0, 0⟩
        else EmailOutcome.failed ⟨[], 0, 0, 0, 0⟩ (codes "err")) [true, false]).errors.length +
      (ingestBatch (fun b : Bool =>
        if b then EmailOutcome.done ⟨[], 0, 0, 0, 0⟩
        else EmailOutcome.failed ⟨[], 0, 0, 0, 0⟩ (codes "err")) [true, false]).processed =
      ([true, false] : List Bool).length ∧
    ((ingestBatch (fun b : Bool =>
        if b then EmailOutcome.done ⟨[], 0, 0, 0, 0⟩
        else EmailOutcome.failed ⟨[], 0, 0, 0, 0⟩ (codes "err")) [true, false]).ok = true ↔
      ∃ e ∈ ([true, false] : List Bool), stepFails (fun b : Bool =>
        if b then EmailOutcome.done ⟨[], 0, 0, 0, 0⟩
        else EmailOutcome.failed ⟨[], 0, 0, 0, 0⟩ (codes "err")) e = false) :=
  C10_batch _ [true, false] (by decide)

/-! ## C6 — router output validation -/

theorem lowerStr_normDomain (s : Str) : lowerStr (normDomain s) = normDomain s := by
  refine lowerStr_fixed (fun c hc => ?_)
  have hmem : c ∈ pyStrip (lowerStr s) := by
    simp only [normDomain] at hc
    split at hc
    · exact List.mem_of_mem_tail hc
    · exact hc
  obtain ⟨n, _, rfl⟩ := List.mem_map.mp (mem_pyStrip hmem)
  exact lowerN_idem n

/-- C6 counterexample: at the explicit routing result
`{intent: "search.find", params: {limit: 100}, confidence: 1}` with
`search.find` among the allowed agents, the validated limit is 50 — the code
clamps every limit into `[1,50]` — whereas the claimed `[1,200]` clamp for
`search.find` would leave 100, so the claim as stated is false. -/
theorem C6_counterexample :
    (validateResult
        { intent := some (codes "search.find"),
          params := { sender := none, domain := none, limit := some (some 100),
                      dateWindowDays := none, language := none, keywords := none },
          confidence := some 1 }
        [codes "search.find", codes "search.latest_from"]).intent =
      some (codes "search.find") ∧
    (validateResult
        { intent := some (codes "search.find"),
          params := { sender := none, domain := none, limit := some (some 100),
                      dateWindowDays := none, language := none, keywords := none },
          confidence := some 1 }
        [codes "search.find", codes "search.latest_from"]).params.limit = 50 ∧
    max 1 (min 200 (100 : Int)) = 100 ∧ (50 : Int) ≠ 100 := by
  refine ⟨by decide, by decide, by decide, by decide⟩

/-- C6 (amended): for every routing result and allowed-agent list, the
validated output satisfies: intent is null, the (falsy, unchecked) empty
string, or an element of allowed_agents; confidence lies in [0,1]; sender is
lowercased; domain has one leading `@` stripped and is lowercased; limit is
clamped to [1,50] REGARDLESS of intent (the [1,200] clamp for `search.find`
exists only in the backup variant of the router); and date_window_days is
clamped to [1,365]. -/
theorem C6_amended (r : RawResult) (avail : List Str) :
    (∀ i, (validateResult r avail).intent = some i → i = [] ∨ i ∈ avail) ∧
    0 ≤ (validateResult r avail).confidence ∧
    (validateResult r avail).confidence ≤ 1 ∧
    (∀ s, (validateResult r avail).params.sender = some s → lowerStr s = s) ∧
    (∀ dm, (validateResult r avail).params.domain = some dm →
      lowerStr dm = dm ∧ dm = normDomain (r.params.domain.getD [])) ∧
    1 ≤ (validateResult r avail).params.limit ∧
    (validateResult r avail).params.limit ≤ 50 ∧
    (∀ n, (validateResult r avail).params.dateWindowDays = some n → 1 ≤ n ∧ n ≤ 365) := by
  simp only [validateResult]
  refine ⟨?_, ?_, ?_, ?_, ?_, ?_, ?_, ?_⟩
  · intro i hi
    by_cases hw : (truthy r.intent && !(avail.contains (r.intent.getD []))) = true
    · rw [if_pos hw] at hi
      cases hi
    · rw [if_neg hw] at hi
      by_cases hie : i = []
      · exact Or.inl hie
      · refine Or.inr ?_
        rw [Bool.and_eq_true, Bool.not_eq_true'] at hw
        push_neg at hw
        have htr : truthy r.intent = true := by
          rw [hi]
          simp [truthy, hie]
        have hcont := hw htr
        rw [hi] at hcont
        simpa using hcont
  · exact le_max_left _ _
  · exact max_le (by norm_num) (min_le_left _ _)
  · intro s hs
    split at hs
    · cases hs
      exact lowerStr_pyStrip_lowerStr _
    · cases hs
  · intro dm hdm
    split at hdm
    · cases hdm
      exact ⟨lowerStr_normDomain _, rfl⟩
    · cases hdm
  · cases hL : r.params.limit with
    | none => simp
    | some v =>
        cases v with
        | none => simp
        | some n => exact le_max_left _ _
  · cases hL : r.params.limit with
    | none => simp
    | some v =>
        cases v with
        | none => simp
        | some n => exact max_le (by norm_num) (min_le_left _ _)
  · intro n hn
    revert hn
    cases hD : r.params.dateWindowDays with
    | none => intro hn; cases hn
    | some v =>
        cases v with
        | none => intro hn; cases hn
        | some m =>
            intro hn
            cases hn
            exact ⟨le_max_left _ _, max_le (by norm_num) (min_le_left _ _)⟩

/-- C6 witness: the amended theorem applied at a concrete routing result:
the sender ` Bruce ` is normalized to the lowercase `bruce`, and the limit
is clamped into `[1,50]`. -/
theorem C6_witness :
    lowerStr (codes "bruce") = codes "bruce" :=
  (C6_amended
    { intent := some (codes "search.latest_from"),
      params := { sender := some (codes " Bruce "), domain := none,
                  limit := some (some 3), dateWindowDays := none,
                  language := none, keywords := none },
      confidence := some 1 }
    [codes "search.latest_from"]).2.2.2.1 (codes "bruce") (by decide)

/-! ## C7 — regex fallback decision -/

/-- C7 counterexample: on the explicit input `email from bruce about mice`
both a sender (`bruce`) and a topic (the `about …` cue of the spec) are
detected, yet `_fallback_intent_detection` of `api/agents/intent_llm.py`
returns `search.latest_from`, not `search.find` as the claim states — that
module has no topic detection and no `search.find` branch at all. -/
theorem C7_counterexample :
    (fallbackIntentDetection (codes "email from bruce about mice")).intent =
      some (codes "search.latest_from") ∧
    (fallbackIntentDetection (codes "email from bruce about mice")).params.sender =
      some (codes "bruce") ∧
    specTopicDetected (lowerStr (codes "email from bruce about mice")) = true ∧
    some (codes "search.latest_from") ≠ some (codes "search.find") := by
  refine ⟨by decide, by decide, by decide, by decide⟩

/-- C7 (amended): when the chat client is unavailable, the regex fallback of
`api/agents/intent_llm.py` returns intent `search.latest_from` exactly when
an email cue word occurs in the lowercased text and one of the five sender
patterns matches; in every other case (including sender plus topic, or topic
with no email cue) it returns a null intent — it never returns
`search.find`. -/
theorem C7_amended (text : Str) :
    ((fallbackIntentDetection text).intent = some (codes "search.latest_from") ∨
      (fallbackIntentDetection text).intent = none) ∧
    ((fallbackIntentDetection text).intent = some (codes "search.latest_from") ↔
      (emailKeywords.any (fun k => containsSub k (lowerStr text)) = true ∧
        (senderSearch (lowerStr text)).isSome = true)) := by
  simp only [fallbackIntentDetection]
  by_cases hk : emailKeywords.any (fun k => containsSub k (lowerStr text)) = true
  · rw [if_pos hk]
    cases hs : senderSearch (lowerStr text) with
    | some s => simp [hk, hs]
    | none => simp [hk, hs]
  · rw [if_neg hk]
    simp [hk]


/-! ## C1 — early dedup idempotence -/

/-- C1: for every ingest request whose `(source_id, content_hash)` pair
already names an existing document (and exactly one such row exists), the
ingest returns `dedup = true` with `n_chunks = 0` and leaves the store
unchanged — no chunk row is deleted or inserted, no embedding is written,
and exactly one document row for that content_hash in that source remains. -/
theorem C1_dedup (cfg : ChunkCfg) (req : GmailReq) (extra : List Str)
    (embedF : List Str → Except Unit (List (List ℚ))) (st0 : Store) (sid : Nat)
    (hbody : pyStrip req.plainText ≠ [])
    (hsrc : st0.sources.find? (fun r => r.1 = gmailS ∧ r.2.1 = req.accountId) =
      some (gmailS, req.accountId, sid))
    (hdoc : (st0.documents.filter
        (fun d => d.sourceId = sid ∧ d.contentHash = reqHash req)).length = 1) :
    (ingestGmail cfg req extra embedF st0).1 = st0 ∧
    (∃ resp, (ingestGmail cfg req extra embedF st0).2 = .ok resp ∧
        resp.dedup = true ∧ resp.nChunks = 0) ∧
    ((ingestGmail cfg req extra embedF st0).1.documents.filter
        (fun d => d.sourceId = sid ∧ d.contentHash = reqHash req)).length = 1 := by
  have hup : upsertSource st0 gmailS req.accountId = (st0, sid) := by
    simp only [upsertSource, hsrc]
  have hlen : 0 < (st0.documents.filter
      (fun d => d.sourceId = sid ∧ d.contentHash = reqHash req)).length := by omega
  obtain ⟨x, hx⟩ := List.exists_mem_of_length_pos hlen
  have hx2 := List.mem_filter.mp hx
  have hfs : (st0.documents.find?
      (fun d => d.sourceId = sid ∧ d.contentHash = reqHash req)).isSome = true :=
    List.find?_isSome.mpr ⟨x, hx2.1, hx2.2⟩
  obtain ⟨d, hd⟩ := Option.isSome_iff_exists.mp hfs
  have htxn : ingestTxn cfg req extra embedF st0 =
      .ok (st0, { ok := true, documentId := d.id, dedup := true, nChunks := 0,
                  tags := none }) := by
    simp only [ingestTxn, hup, hd]
  have hmain : ingestGmail cfg req extra embedF st0 =
      (st0, .ok { ok := true, documentId := d.id, dedup := true, nChunks := 0,
                  tags := none }) := by
    simp only [ingestGmail, htxn, if_neg hbody]
  rw [hmain]
  exact ⟨rfl, ⟨_, rfl, rfl, rfl⟩, hdoc⟩

/-- C1 witness: the theorem applied to a concrete one-source, one-document
store that already holds the ingested content_hash. -/
theorem C1_witness :
    (ingestGmail defaultCfg
        { accountId := codes "u", externalId := codes "m1", subject := some (codes "Hi"),
          snippet := none, plainText := codes "Body", ts := 0, tags := none,
          sourceUrl := none, labelIds := none, contentHash := some (codes "h1") }
        [] (fun _ => .error ())
        { nextId := 2, sources := [(gmailS, codes "u", 0)],
          documents := [{ id := 1, sourceId := 0, externalId := codes "m1",
                          title := some (codes "Hi"), preview := none,
                          plainText := codes "Body", ts := 0, sourceUrl := none,
                          contentHash := codes "h1", embedding := none }],
          chunks := [], tags := [], documentTags := [] }).1 =
      { nextId := 2, sources := [(gmailS, codes "u", 0)],
        documents := [{ id := 1, sourceId := 0, externalId := codes "m1",
                        title := some (codes "Hi"), preview := none,
                        plainText := codes "Body", ts := 0, sourceUrl := none,
                        contentHash := codes "h1", embedding := none }],
        chunks := [], tags := [], documentTags := [] } ∧
    (∃ resp, (ingestGmail defaultCfg
        { accountId := codes "u", externalId := codes "m1", subject := some (codes "Hi"),
          snippet := none, plainText := codes "Body", ts := 0, tags := none,
          sourceUrl := none, labelIds := none, contentHash := some (codes "h1") }
        [] (fun _ => .error ())
        { nextId := 2, sources := [(gmailS, codes "u", 0)],
          documents := [{ id := 1, sourceId := 0, externalId := codes "m1",
                          title := some (codes "Hi"), preview := none,
                          plainText := codes "Body", ts := 0, sourceUrl := none,
                          contentHash := codes "h1", embedding := none }],
          chunks := [], tags := [], documentTags := [] }).2 = .ok resp ∧
        resp.dedup = true ∧ resp.nChunks = 0) ∧
    ((ingestGmail defaultCfg
        { accountId := codes "u", externalId := codes "m1", subject := some (codes "Hi"),
          snippet := none, plainText := codes "Body", ts := 0, tags := none,
          sourceUrl := none, labelIds := none, contentHash := some (codes "h1") }
        [] (fun _ => .error ())
        { nextId := 2, sources := [(gmailS, codes "u", 0)],
          documents := [{ id := 1, sourceId := 0, externalId := codes "m1",
                          title := some (codes "Hi"), preview := none,
                          plainText := codes "Body", ts := 0, sourceUrl := none,
                          contentHash := codes "h1", embedding := none }],
          chunks := [], tags := [], documentTags := [] }).1.documents.filter
        (fun d => d.sourceId = 0 ∧ d.contentHash = reqHash
          { accountId := codes "u", externalId := codes "m1", subject := some (codes "Hi"),
            snippet := none, plainText := codes "Body", ts := 0, tags := none,
            sourceUrl := none, labelIds := none, contentHash := some (codes "h1") })).length = 1 :=
  C1_dedup defaultCfg _ [] _ _ 0 (by decide) (by decide) (by decide)


/-! ## C9 — document embedding is the chunk mean -/

theorem avg_fold_spec (dim : Nat) (vecs : List (List ℚ)) :
    ∀ acc : List ℚ, acc.length = dim →
      (vecs.foldl
        (fun acc v => (List.range dim).map (fun i => acc.getD i 0 + v.getD i 0)) acc).length
          = dim ∧
      ∀ i, i < dim →
        (vecs.foldl
          (fun acc v => (List.range dim).map (fun i => acc.getD i 0 + v.getD i 0)) acc).getD i 0
            = acc.getD i 0 + (vecs.map (fun v => v.getD i 0)).sum := by
  induction vecs with
  | nil => exact fun acc hlen => ⟨hlen, fun i _ => by simp⟩
  | cons v vs ih =>
      intro acc hlen
      rw [List.foldl_cons]
      obtain ⟨hl, hg⟩ := ih ((List.range dim).map (fun i => acc.getD i 0 + v.getD i 0))
        (by simp)
      refine ⟨hl, fun i hi => ?_⟩
      rw [hg i hi]
      have hstep : ((List.range dim).map (fun j => acc.getD j 0 + v.getD j 0)).getD i 0 =
          acc.getD i 0 + v.getD i 0 := by
        rw [List.getD_eq_getElem?_getD, List.getElem?_map, List.getElem?_range hi]
        rfl
      rw [hstep, List.map_cons, List.sum_cons]
      ring

/-- The componentwise-mean characterization of `_avg_vectors` on uniform
dimensions. -/
theorem avgVectors_spec (vecs : List (List ℚ)) (d : Nat) (hne : vecs ≠ [])
    (hd : ∀ v ∈ vecs, v.length = d) :
    (avgVectors vecs).length = d ∧
    ∀ i, i < d → (avgVectors vecs).getD i 0 =
      (vecs.map (fun v => v.getD i 0)).sum / (vecs.length : ℚ) := by
  cases vecs with
  | nil => exact absurd rfl hne
  | cons v0 vs =>
      have hd0 : v0.length = d := hd v0 (by simp)
      obtain ⟨hl, hg⟩ := avg_fold_spec v0.length (v0 :: vs)
        (List.replicate v0.length 0) (by simp)
      simp only [avgVectors]
      constructor
      · rw [List.length_map, hl, hd0]
      · intro i hi
        have hi0 : i < v0.length := by omega
        have hil : i < ((v0 :: vs).foldl
            (fun acc v => (List.range v0.length).map (fun i => acc.getD i 0 + v.getD i 0))
            (List.replicate v0.length 0)).length := by rw [hl]; exact hi0
        rw [List.getD_eq_getElem?_getD, List.getElem?_map,
          List.getElem?_eq_getElem hil]
        simp only [Option.map_some', Option.getD_some]
        have hrep : (List.replicate v0.length (0 : ℚ)).getD i 0 = 0 := by
          rw [List.getD_eq_getElem?_getD, List.getElem?_replicate]
          simp [hi0]
        have := hg i hi0
        rw [List.getD_eq_getElem?_getD, List.getElem?_eq_getElem hil] at this
        simp only [Option.getD_some] at this
        rw [this, hrep, zero_add]

theorem ensureTag_keeps (st : Store) (n : Str) :
    ((ensureTag st n).1).documents = st.documents ∧ ((ensureTag st n).1).chunks = st.chunks := by
  unfold ensureTag
  split
  · exact ⟨rfl, rfl⟩
  · split <;> exact ⟨rfl, rfl⟩

theorem attachTag_keeps (st : Store) (docId tagId : Nat) :
    (attachTag st docId tagId).documents = st.documents ∧
    (attachTag st docId tagId).chunks = st.chunks := by
  unfold attachTag
  split <;> exact ⟨rfl, rfl⟩

theorem attachAll_keeps (names : List Str) :
    ∀ (st : Store) (docId : Nat),
      (attachAll st docId names).documents = st.documents ∧
      (attachAll st docId names).chunks = st.chunks := by
  induction names with
  | nil => exact fun st docId => ⟨rfl, rfl⟩
  | cons n ns ih =>
      intro st docId
      simp only [attachAll, List.foldl_cons]
      cases het : ensureTag st n with
      | mk st1 tid =>
          cases tid with
          | some t =>
              have h1 : ((ensureTag st n).1).documents = st.documents ∧
                  ((ensureTag st n).1).chunks = st.chunks := ensureTag_keeps st n
              rw [het] at h1
              have h2 := attachTag_keeps st1 docId t
              have h3 := ih (attachTag st1 docId t) docId
              simp only [attachAll] at h3
              exact ⟨by rw [h3.1, h2.1, h1.1], by rw [h3.2, h2.2, h1.2]⟩
          | none =>
              have h1 : ((ensureTag st n).1).documents = st.documents ∧
                  ((ensureTag st n).1).chunks = st.chunks := ensureTag_keeps st n
              rw [het] at h1
              have h3 := ih st1 docId
              simp only [attachAll] at h3
              exact ⟨by rw [h3.1, h1.1], by rw [h3.2, h1.2]⟩

theorem upsertDocument_mem (st : Store) (sid : Nat) (req : GmailReq) (h : Str) :
    ∃ row ∈ ((upsertDocument st sid req h).1).documents,
      row.id = (upsertDocument st sid req h).2 := by
  unfold upsertDocument
  cases hf : st.documents.find? (fun d => d.sourceId = sid ∧ d.externalId = req.externalId) with
  | some d =>
      have hdmem : d ∈ st.documents := List.mem_of_find?_eq_some hf
      dsimp only
      refine ⟨_, List.mem_map_of_mem _ hdmem, ?_⟩
      simp
  | none =>
      dsimp only
      refine ⟨{ id := st.nextId, sourceId := sid, externalId := req.externalId, title := req.subject, preview := req.snippet, plainText := req.plainText, ts := req.ts, sourceUrl := req.sourceUrl, contentHash := h, embedding := none }, ?_, rfl⟩
      simp

theorem zipWith_chunkRows (docId : Nat) :
    ∀ (idx : List Nat) (chs : List Str) (embs : List (List ℚ)),
      idx.length = chs.length → embs.length = chs.length →
      ((List.zipWith (fun (i : Nat) (tv : Str × List ℚ) => ChunkRow.mk docId i tv.1 tv.2)
          idx (chs.zip embs)).map ChunkRow.embedding = embs ∧
        ∀ x ∈ List.zipWith (fun (i : Nat) (tv : Str × List ℚ) => ChunkRow.mk docId i tv.1 tv.2)
          idx (chs.zip embs), x.documentId = docId) := by
  intro idx chs
  induction chs generalizing idx with
  | nil =>
      intro embs _ hle
      have : embs = [] := List.length_eq_zero.mp (by simpa using hle)
      subst this
      simp
  | cons c cs ih =>
      intro embs hli hle
      cases idx with
      | nil => simp at hli
      | cons i is =>
          cases embs with
          | nil => simp at hle
          | cons e es =>
              simp only [List.zip_cons_cons, List.zipWith_cons_cons, List.map_cons,
                List.mem_cons]
              obtain ⟨ha, hb⟩ := ih is es (by simpa using hli) (by simpa using hle)
              refine ⟨by rw [ha], ?_⟩
              rintro x (rfl | hx)
              · rfl
              · exact hb x hx


/-- The success shape of a non-dedup ingest with at least one chunk: the
response reports the chunk count, and in the final store the ingested
document row carries embedding `_avg_vectors(embeddings)` while its chunk
rows carry exactly those embeddings. -/
theorem ingest_nodedup_ok (cfg : ChunkCfg) (req : GmailReq) (extra : List Str)
    (embedF : List Str → Except Unit (List (List ℚ))) (st0 : Store)
    (embs : List (List ℚ))
    (hbody : pyStrip req.plainText ≠ [])
    (hded : ((upsertSource st0 gmailS req.accountId).1).documents.find?
        (fun d => d.sourceId = (upsertSource st0 gmailS req.accountId).2 ∧
          d.contentHash = reqHash req) = none)
    (hchs : chunkText cfg req.plainText ≠ [])
    (hemb : embedF (chunkText cfg req.plainText) = .ok embs)
    (hne : embs ≠ [])
    (hlen : embs.length = (chunkText cfg req.plainText).length) :
    ∃ resp, (ingestGmail cfg req extra embedF st0).2 = .ok resp ∧
      resp.dedup = false ∧ resp.nChunks = (chunkText cfg req.plainText).length ∧
      (∃ row ∈ ((ingestGmail cfg req extra embedF st0).1).documents,
        row.id = resp.documentId) ∧
      (∀ row ∈ ((ingestGmail cfg req extra embedF st0).1).documents,
        row.id = resp.documentId → row.embedding = some (avgVectors embs)) ∧
      (((ingestGmail cfg req extra embedF st0).1).chunks.filter
          (fun c => c.documentId = resp.documentId)).map ChunkRow.embedding = embs := by
  have hcond : ¬(embs = [] ∨ embs.length ≠ (chunkText cfg req.plainText).length) := by
    push_neg
    exact ⟨hne, hlen⟩
  simp only [ingestGmail, if_neg hbody, ingestTxn, hded, if_pos hchs, hemb, if_neg hcond]
  set st1 := (upsertSource st0 gmailS req.accountId).1 with hst1
  set sid := (upsertSource st0 gmailS req.accountId).2 with hsid
  set st2 := (upsertDocument st1 sid req (reqHash req)).1 with hst2
  set docId := (upsertDocument st1 sid req (reqHash req)).2 with hdocId
  set tags2 := (if extra ≠ [] then normalizeTags (reqTags req ++ extra) else reqTags req)
    with htags
  refine ⟨_, rfl, rfl, rfl, ?_, ?_, ?_⟩
  · obtain ⟨row, hrow, hrowid⟩ := upsertDocument_mem st1 sid req (reqHash req)
    rw [← hst2] at hrow
    rw [← hdocId] at hrowid
    have hmem2 : row ∈ (attachAll st2 docId tags2).documents := by
      rw [(attachAll_keeps tags2 st2 docId).1]
      exact hrow
    refine ⟨_, List.mem_map_of_mem _ hmem2, ?_⟩
    simp [hrowid]
  · intro row hrow hid
    obtain ⟨x, hx, rfl⟩ := List.mem_map.mp hrow
    by_cases hxid : x.id = docId
    · simp [hxid]
    · rw [if_neg hxid] at hid ⊢
      exact absurd hid hxid
  · dsimp only
    rw [List.filter_append]
    have hnil : List.filter (fun c => decide (c.documentId = docId))
        (List.filter (fun c => decide (c.documentId ≠ docId))
          (attachAll st2 docId tags2).chunks) = [] := by
      rw [List.filter_filter]
      apply List.filter_eq_nil_iff.mpr
      intro x hx
      simp
    rw [hnil, List.nil_append]
    obtain ⟨hmap, hall⟩ := zipWith_chunkRows docId
      (List.range (chunkText cfg req.plainText).length) (chunkText cfg req.plainText) embs
      (by simp) hlen
    have hself : List.filter (fun c => decide (c.documentId = docId))
        (List.zipWith (fun (i : Nat) (tv : Str × List ℚ) => ChunkRow.mk docId i tv.1 tv.2)
          (List.range (chunkText cfg req.plainText).length)
          ((chunkText cfg req.plainText).zip embs)) =
        List.zipWith (fun (i : Nat) (tv : Str × List ℚ) => ChunkRow.mk docId i tv.1 tv.2)
          (List.range (chunkText cfg req.plainText).length)
          ((chunkText cfg req.plainText).zip embs) := by
      apply List.filter_eq_self.mpr
      intro x hx
      simp [hall x hx]
    rw [hself, hmap]

/-- C9 (amended): after every successful non-dedup ingest that produced
N ≥ 1 chunks, the stored document embedding equals the componentwise
arithmetic mean of the N chunk embedding vectors (exactly, in the rational
model of float arithmetic), and the stored chunk rows carry exactly those
vectors; the code does not renormalize the mean, so its norm need not be 1. -/
theorem C9_amended (cfg : ChunkCfg) (req : GmailReq) (extra : List Str)
    (embedF : List Str → Except Unit (List (List ℚ))) (st0 : Store)
    (embs : List (List ℚ)) (d : Nat)
    (hbody : pyStrip req.plainText ≠ [])
    (hded : ((upsertSource st0 gmailS req.accountId).1).documents.find?
        (fun dd => dd.sourceId = (upsertSource st0 gmailS req.accountId).2 ∧
          dd.contentHash = reqHash req) = none)
    (hchs : chunkText cfg req.plainText ≠ [])
    (hemb : embedF (chunkText cfg req.plainText) = .ok embs)
    (hne : embs ≠ [])
    (hlen : embs.length = (chunkText cfg req.plainText).length)
    (hd : ∀ v ∈ embs, v.length = d) :
    (∃ resp, (ingestGmail cfg req extra embedF st0).2 = .ok resp ∧
      resp.dedup = false ∧ resp.nChunks = (chunkText cfg req.plainText).length ∧
      (∃ row ∈ ((ingestGmail cfg req extra embedF st0).1).documents,
        row.id = resp.documentId) ∧
      (∀ row ∈ ((ingestGmail cfg req extra embedF st0).1).documents,
        row.id = resp.documentId → row.embedding = some (avgVectors embs)) ∧
      (((ingestGmail cfg req extra embedF st0).1).chunks.filter
          (fun c => c.documentId = resp.documentId)).map ChunkRow.embedding = embs) ∧
    (avgVectors embs).length = d ∧
    (∀ i, i < d → (avgVectors embs).getD i 0 =
      (embs.map (fun v => v.getD i 0)).sum / (embs.length : ℚ)) :=
  ⟨ingest_nodedup_ok cfg req extra embedF st0 embs hbody hded hchs hemb hne hlen,
   (avgVectors_spec embs d hne hd).1, (avgVectors_spec embs d hne hd).2⟩


/-- C9 counterexample: a concrete successful ingest (chunker config
target 30 / overlap 5, a 50-character body, two chunks) whose two chunk
embeddings are the unit vectors `[1,0]` and `[0,1]`: the stored document
embedding is their mean `[1/2, 1/2]`, whose squared norm is `1/2`, not 1 —
the code never renormalizes — so the "norm approximately 1" half of the
claim is false on this explicit input. -/
theorem C9_counterexample :
    (∃ resp, (ingestGmail ⟨30, 5, 3, 2⟩
        { accountId := codes "u", externalId := codes "m1", subject := some (codes "Hi"),
          snippet := none, plainText := List.replicate 50 97, ts := 0, tags := none,
          sourceUrl := none, labelIds := none, contentHash := some (codes "h1") }
        []
        (fun ts => if ts.length = 2 then .ok [[1, 0], [0, 1]] else .error ())
        { nextId := 0, sources := [], documents := [], chunks := [], tags := [],
          documentTags := [] }).2 = .ok resp ∧
      resp.dedup = false ∧ resp.nChunks = 2 ∧
      (∃ row ∈ ((ingestGmail ⟨30, 5, 3, 2⟩
        { accountId := codes "u", externalId := codes "m1", subject := some (codes "Hi"),
          snippet := none, plainText := List.replicate 50 97, ts := 0, tags := none,
          sourceUrl := none, labelIds := none, contentHash := some (codes "h1") }
        []
        (fun ts => if ts.length = 2 then .ok [[1, 0], [0, 1]] else .error ())
        { nextId := 0, sources := [], documents := [], chunks := [], tags := [],
          documentTags := [] }).1).documents, row.id = resp.documentId) ∧
      (∀ row ∈ ((ingestGmail ⟨30, 5, 3, 2⟩
        { accountId := codes "u", externalId := codes "m1", subject := some (codes "Hi"),
          snippet := none, plainText := List.replicate 50 97, ts := 0, tags := none,
          sourceUrl := none, labelIds := none, contentHash := some (codes "h1") }
        []
        (fun ts => if ts.length = 2 then .ok [[1, 0], [0, 1]] else .error ())
        { nextId := 0, sources := [], documents := [], chunks := [], tags := [],
          documentTags := [] }).1).documents,
        row.id = resp.documentId →
          row.embedding = some (avgVectors [[1, 0], [0, 1]]))) ∧
    sumSq [1, 0] = 1 ∧ sumSq [0, 1] = 1 ∧
    avgVectors [[1, 0], [0, 1]] = [1 / 2, 1 / 2] ∧
    sumSq (avgVectors [[1, 0], [0, 1]]) = 1 / 2 ∧ ((1 : ℚ) / 2) ≠ 1 := by
  refine ⟨?_, by norm_num [sumSq], by norm_num [sumSq],
    by norm_num [avgVectors, List.range_succ], ?_, by norm_num⟩
  · obtain ⟨resp, h1, h2, h3, h4, h5, _⟩ := ingest_nodedup_ok ⟨30, 5, 3, 2⟩
      { accountId := codes "u", externalId := codes "m1", subject := some (codes "Hi"),
        snippet := none, plainText := List.replicate 50 97, ts := 0, tags := none,
        sourceUrl := none, labelIds := none, contentHash := some (codes "h1") }
      []
      (fun ts => if ts.length = 2 then .ok [[1, 0], [0, 1]] else .error ())
      { nextId := 0, sources := [], documents := [], chunks := [], tags := [],
        documentTags := [] }
      [[1, 0], [0, 1]]
      (by decide) (by rfl) (by decide) (by rfl) (by simp) (by rfl)
    exact ⟨resp, h1, h2, by rw [h3]; rfl, h4, h5⟩
  · rw [show avgVectors [[(1 : ℚ), 0], [0, 1]] = [1 / 2, 1 / 2] from
      by norm_num [avgVectors, List.range_succ]]
    norm_num [sumSq]

/-- C9 witness: the amended theorem applied at the same concrete ingest. -/
theorem C9_witness :
    (∃ resp, (ingestGmail ⟨30, 5, 3, 2⟩
        { accountId := codes "u", externalId := codes "m1", subject := some (codes "Hi"),
          snippet := none, plainText := List.replicate 50 97, ts := 0, tags := none,
          sourceUrl := none, labelIds := none, contentHash := some (codes "h1") }
        []
        (fun ts => if ts.length = 2 then .ok [[1, 0], [0, 1]] else .error ())
        { nextId := 0, sources := [], documents := [], chunks := [], tags := [],
          documentTags := [] }).2 = .ok resp ∧
      resp.dedup = false ∧
      resp.nChunks = (chunkText ⟨30, 5, 3, 2⟩ (List.replicate 50 97)).length ∧
      (∃ row ∈ ((ingestGmail ⟨30, 5, 3, 2⟩
        { accountId := codes "u", externalId := codes "m1", subject := some (codes "Hi"),
          snippet := none, plainText := List.replicate 50 97, ts := 0, tags := none,
          sourceUrl := none, labelIds := none, contentHash := some (codes "h1") }
        []
        (fun ts => if ts.length = 2 then .ok [[1, 0], [0, 1]] else .error ())
        { nextId := 0, sources := [], documents := [], chunks := [], tags := [],
          documentTags := [] }).1).documents, row.id = resp.documentId) ∧
      (∀ row ∈ ((ingestGmail ⟨30, 5, 3, 2⟩
        { accountId := codes "u", externalId := codes "m1", subject := some (codes "Hi"),
          snippet := none, plainText := List.replicate 50 97, ts := 0, tags := none,
          sourceUrl := none, labelIds := none, contentHash := some (codes "h1") }
        []
        (fun ts => if ts.length = 2 then .ok [[1, 0], [0, 1]] else .error ())
        { nextId := 0, sources := [], documents := [], chunks := [], tags := [],
          documentTags := [] }).1).documents,
        row.id = resp.documentId →
          row.embedding = some (avgVectors [[1, 0], [0, 1]])) ∧
      (((ingestGmail ⟨30, 5, 3, 2⟩
        { accountId := codes "u", externalId := codes "m1", subject := some (codes "Hi"),
          snippet := none, plainText := List.replicate 50 97, ts := 0, tags := none,
          sourceUrl := none, labelIds := none, contentHash := some (codes "h1") }
        []
        (fun ts => if ts.length = 2 then .ok [[1, 0], [0, 1]] else .error ())
        { nextId := 0, sources := [], documents := [], chunks := [], tags := [],
          documentTags := [] }).1).chunks.filter
          (fun c => c.documentId = resp.documentId)).map ChunkRow.embedding =
        [[1, 0], [0, 1]]) ∧
    (avgVectors [[1, 0], [0, 1]]).length = 2 ∧
    (∀ i, i < 2 → (avgVectors [[(1 : ℚ), 0], [0, 1]]).getD i 0 =
      ([[(1 : ℚ), 0], [0, 1]].map (fun v => v.getD i 0)).sum /
        (([[(1 : ℚ), 0], [0, 1]] : List (List ℚ)).length : ℚ)) :=
  C9_amended ⟨30, 5, 3, 2⟩
    { accountId := codes "u", externalId := codes "m1", subject := some (codes "Hi"),
      snippet := none, plainText := List.replicate 50 97, ts := 0, tags := none,
      sourceUrl := none, labelIds := none, contentHash := some (codes "h1") }
    []
    (fun ts => if ts.length = 2 then .ok [[1, 0], [0, 1]] else .error ())
    { nextId := 0, sources := [], documents := [], chunks := [], tags := [],
      documentTags := [] }
    [[1, 0], [0, 1]] 2
    (by decide) (by rfl) (by decide) (by rfl) (by simp) (by rfl)
    (by intro v hv; simp at hv; rcases hv with rfl | rfl <;> rfl)


/-! ## C5 — response invariants -/

theorem assembleResp_spec (req : SearchReq) (ordered : List Scored)
    (hoff : 0 ≤ req.offset) :
    (assembleResp req ordered).hits.length ≤ (assembleResp req ordered).total ∧
    ((assembleResp req ordered).nextOffset ≠ none ↔
      (req.offset + (assembleResp req ordered).hits.length : Int) <
        ((assembleResp req ordered).total : Int)) ∧
    (∀ v, (assembleResp req ordered).nextOffset = some v →
      v = req.offset + (assembleResp req ordered).hits.length) ∧
    (∀ h ∈ (assembleResp req ordered).hits, h.score = coerceScore (.fin h.row.final)) := by
  simp only [assembleResp]
  have hscore : ∀ h ∈ ((ordered.drop (max 0 req.offset).toNat).take
      (max 1 (min 200 req.topK)).toNat).map
        (fun r => Hit.mk r (coerceScore (.fin r.final))),
      h.score = coerceScore (.fin h.row.final) := by
    intro h hh
    obtain ⟨r, _, rfl⟩ := List.mem_map.mp hh
    rfl
  have hlen : (((ordered.drop (max 0 req.offset).toNat).take
      (max 1 (min 200 req.topK)).toNat).map
        (fun r => Hit.mk r (coerceScore (.fin r.final)))).length ≤ ordered.length := by
    rw [List.length_map, List.length_take, List.length_drop]
    omega
  generalize hH : ((ordered.drop (max 0 req.offset).toNat).take
      (max 1 (min 200 req.topK)).toNat).map
        (fun r => Hit.mk r (coerceScore (.fin r.final))) = hits at hscore hlen ⊢
  by_cases hie : hits.isEmpty
  · obtain rfl := List.isEmpty_iff.mp hie
    have hd : decide ((req.offset + (([] : List Hit).length : Int)) <
        ((if ([] : List Hit).isEmpty then 0 else ordered.length : Nat) : Int)) = false := by
      apply decide_eq_false
      simp
      omega
    rw [hd]
    refine ⟨by simp, ?_, ?_, hscore⟩
    · simp only [Bool.false_eq_true, if_false, ne_eq, not_true_eq_false, false_iff, not_lt]
      simp
      omega
    · intro v hv
      simp only [Bool.false_eq_true, if_false] at hv
      cases hv
  · rw [if_neg hie]
    by_cases hm : (req.offset + (hits.length : Int)) < (ordered.length : Int)
    · have hd : decide ((req.offset + (hits.length : Int)) < ((ordered.length : Nat) : Int)) =
          true := decide_eq_true hm
      rw [hd]
      simp only [if_true]
      refine ⟨hlen, ?_, ?_, hscore⟩
      · simp only [ne_eq, reduceCtorEq, not_false_eq_true, true_iff]
        exact hm
      · intro v hv
        cases hv
        rfl
    · have hd : decide ((req.offset + (hits.length : Int)) < ((ordered.length : Nat) : Int)) =
          false := decide_eq_false hm
      rw [hd]
      simp only [Bool.false_eq_true, if_false]
      refine ⟨hlen, ?_, ?_, hscore⟩
      · simp only [ne_eq, not_true_eq_false, false_iff, not_lt]
        omega
      · intro v hv
        cases hv

/-- C5: every retrieval response satisfies `total ≥ len(hits)`; `next_offset`
is non-null iff `offset + len(hits) < total` and then equals
`offset + len(hits)`; and every hit score is finite — the score of each hit
is the coercion of its database value, and the coercion maps NaN, ±∞ and
NULL to 0. -/
theorem C5_response (dist : List ℚ → List ℚ → ℚ) (qvec : Option (List ℚ)) (now : Int)
    (req : SearchReq) (cands : List Cand) (hoff : 0 ≤ req.offset) :
    (searchModel dist qvec now req cands).hits.length ≤
      (searchModel dist qvec now req cands).total ∧
    ((searchModel dist qvec now req cands).nextOffset ≠ none ↔
      (req.offset + (searchModel dist qvec now req cands).hits.length : Int) <
        ((searchModel dist qvec now req cands).total : Int)) ∧
    (∀ v, (searchModel dist qvec now req cands).nextOffset = some v →
      v = req.offset + (searchModel dist qvec now req cands).hits.length) ∧
    (∀ h ∈ (searchModel dist qvec now req cands).hits,
      h.score = coerceScore (.fin h.row.final)) ∧
    coerceScore .nan = 0 ∧ coerceScore .posInf = 0 ∧ coerceScore .negInf = 0 ∧
    coerceScore .null = 0 := by
  by_cases hq : pyStrip req.query = []
  · simp only [searchModel, if_pos hq]
    refine ⟨by simp, ?_, ?_, by simp, rfl, rfl, rfl, rfl⟩
    · simp only [ne_eq, not_true_eq_false, false_iff, not_lt]
      simp
      omega
    · intro v hv
      cases hv
  · simp only [searchModel, if_neg hq]
    obtain ⟨h1, h2, h3, h4⟩ := assembleResp_spec req (sqlRows dist qvec now req cands) hoff
    exact ⟨h1, h2, h3, h4, rfl, rfl, rfl, rfl⟩

/-- C5 witness: the theorem applied at a concrete query over an empty
candidate table. -/
theorem C5_witness :
    (searchModel (fun _ _ => 0) none 0
        { query := codes "q", topK := 10, offset := 0, tags := [], boostTags := [],
          dateFrom := none, dateTo := none, decayDays := 7 } []).hits.length ≤
      (searchModel (fun _ _ => 0) none 0
        { query := codes "q", topK := 10, offset := 0, tags := [], boostTags := [],
          dateFrom := none, dateTo := none, decayDays := 7 } []).total ∧
    ((searchModel (fun _ _ => 0) none 0
        { query := codes "q", topK := 10, offset := 0, tags := [], boostTags := [],
          dateFrom := none, dateTo := none, decayDays := 7 } []).nextOffset ≠ none ↔
      ((0 : Int) + (searchModel (fun _ _ => 0) none 0
        { query := codes "q", topK := 10, offset := 0, tags := [], boostTags := [],
          dateFrom := none, dateTo := none, decayDays := 7 } []).hits.length : Int) <
        ((searchModel (fun _ _ => 0) none 0
        { query := codes "q", topK := 10, offset := 0, tags := [], boostTags := [],
          dateFrom := none, dateTo := none, decayDays := 7 } []).total : Int)) ∧
    (∀ v, (searchModel (fun _ _ => 0) none 0
        { query := codes "q", topK := 10, offset := 0, tags := [], boostTags := [],
          dateFrom := none, dateTo := none, decayDays := 7 } []).nextOffset = some v →
      v = (0 : Int) + (searchModel (fun _ _ => 0) none 0
        { query := codes "q", topK := 10, offset := 0, tags := [], boostTags := [],
          dateFrom := none, dateTo := none, decayDays := 7 } []).hits.length) ∧
    (∀ h ∈ (searchModel (fun _ _ => 0) none 0
        { query := codes "q", topK := 10, offset := 0, tags := [], boostTags := [],
          dateFrom := none, dateTo := none, decayDays := 7 } []).hits,
      h.score = coerceScore (.fin h.row.final)) ∧
    coerceScore .nan = 0 ∧ coerceScore .posInf = 0 ∧ coerceScore .negInf = 0 ∧
    coerceScore .null = 0 :=
  C5_response (fun _ _ => 0) none 0
    { query := codes "q", topK := 10, offset := 0, tags := [], boostTags := [],
      dateFrom := none, dateTo := none, decayDays := 7 } [] (by decide)


/-! ## C4 — scoring, dedup, ordering -/

theorem ordLe_total (x y : Scored) : (ordLe x y || ordLe y x) = true := by
  simp only [ordLe, Bool.or_eq_true, Bool.and_eq_true, decide_eq_true_eq]
  rcases lt_trichotomy x.final y.final with hf | hf | hf
  · exact Or.inr (Or.inl hf)
  · rcases lt_trichotomy x.c.ts y.c.ts with ht | ht | ht
    · exact Or.inr (Or.inr ⟨hf.symm, Or.inl ht⟩)
    · rcases Nat.le_total x.c.plainText.length y.c.plainText.length with hl | hl
      · exact Or.inl (Or.inr ⟨hf, Or.inr ⟨ht, hl⟩⟩)
      · exact Or.inr (Or.inr ⟨hf.symm, Or.inr ⟨ht.symm, hl⟩⟩)
    · exact Or.inl (Or.inr ⟨hf, Or.inl ht⟩)
  · exact Or.inl (Or.inl hf)

theorem ordLe_trans (x y z : Scored) (hxy : ordLe x y = true) (hyz : ordLe y z = true) :
    ordLe x z = true := by
  simp only [ordLe, Bool.or_eq_true, Bool.and_eq_true, decide_eq_true_eq] at *
  rcases hxy with h1 | ⟨h1, h2⟩
  · rcases hyz with h3 | ⟨h3, h4⟩
    · exact Or.inl (h3.trans h1)
    · exact Or.inl (by rw [← h3]; exact h1)
  · rcases hyz with h3 | ⟨h3, h4⟩
    · exact Or.inl (by rw [h1]; exact h3)
    · refine Or.inr ⟨h1.trans h3, ?_⟩
      rcases h2 with t1 | ⟨t1, l1⟩
      · rcases h4 with t3 | ⟨t3, t4⟩
        · exact Or.inl (t3.trans t1)
        · exact Or.inl (by rw [← t3]; exact t1)
      · rcases h4 with t3 | ⟨t3, t4⟩
        · exact Or.inl (by rw [t1]; exact t3)
        · exact Or.inr ⟨t1.trans t3, l1.trans t4⟩

theorem ordLe_refl (x : Scored) : ordLe x x = true := by
  have h := ordLe_total x x
  simpa using h

theorem ordLt_eq_false_of_le {x y : Scored} (h : ordLe y x = true) : ordLt x y = false := by
  unfold ordLt
  rw [h]
  simp

theorem foldl_pick_mem : ∀ (xs : List Scored) (x : Scored),
    xs.foldl (fun b y => if ordLt y b then y else b) x ∈ x :: xs := by
  intro xs
  induction xs with
  | nil => intro x; simp
  | cons y ys ih =>
      intro x
      rw [List.foldl_cons]
      have h := ih (if ordLt y x then y else x)
      rcases List.mem_cons.mp h with hm | hm
      · rw [hm]
        split <;> simp
      · exact List.mem_cons.mpr (Or.inr (List.mem_cons.mpr (Or.inr hm)))

theorem foldl_pick_le : ∀ (xs : List Scored) (x : Scored),
    ∀ y ∈ x :: xs, ordLe (xs.foldl (fun b y => if ordLt y b then y else b) x) y = true := by
  intro xs
  induction xs with
  | nil =>
      intro x y hy
      rcases List.mem_cons.mp hy with h | hm
      · subst h
        exact ordLe_refl _
      · cases hm
  | cons y0 ys ih =>
      intro x y hy
      rw [List.foldl_cons]
      have hple : ordLe (if ordLt y0 x then y0 else x) x = true ∧
          ordLe (if ordLt y0 x then y0 else x) y0 = true := by
        by_cases hlt : ordLt y0 x = true
        · rw [if_pos hlt]
          unfold ordLt at hlt
          rw [Bool.and_eq_true] at hlt
          exact ⟨hlt.1, ordLe_refl y0⟩
        · rw [if_neg hlt]
          refine ⟨ordLe_refl x, ?_⟩
          unfold ordLt at hlt
          have ht := ordLe_total y0 x
          rw [Bool.or_eq_true] at ht
          rcases ht with h | h
          · rw [h] at hlt
            simp only [Bool.true_and, Bool.not_eq_true', ne_eq] at hlt
            cases hb : ordLe x y0
            · rw [hb] at hlt
              simp at hlt
            · rfl
          · exact h
      rcases List.mem_cons.mp hy with rfl | hm
      · exact ordLe_trans _ _ _ (ih _ _ (List.mem_cons_self _ _)) hple.1
      · rcases List.mem_cons.mp hm with rfl | hm2
        · exact ordLe_trans _ _ _ (ih _ _ (List.mem_cons_self _ _)) hple.2
        · exact ih _ _ (List.mem_cons.mpr (Or.inr hm2))

theorem bestOf_mem {l : List Scored} {b : Scored} (h : bestOf l = some b) : b ∈ l := by
  cases l with
  | nil => cases h
  | cons x xs =>
      simp only [bestOf, Option.some_inj] at h
      rw [← h]
      exact foldl_pick_mem xs x

theorem bestOf_le {l : List Scored} {b : Scored} (h : bestOf l = some b) :
    ∀ y ∈ l, ordLe b y = true := by
  cases l with
  | nil => cases h
  | cons x xs =>
      simp only [bestOf, Option.some_inj] at h
      rw [← h]
      exact foldl_pick_le xs x

theorem dedupRows_subset {l : List Scored} : ∀ b ∈ dedupRows l, b ∈ l := by
  intro b hb
  obtain ⟨k, _, hbest⟩ := List.mem_filterMap.mp hb
  exact (List.mem_filter.mp (bestOf_mem hbest)).1

theorem dedupRows_opt {l : List Scored} : ∀ b ∈ dedupRows l, ∀ r ∈ l,
    dedupKey r.c = dedupKey b.c → ordLt r b = false := by
  intro b hb r hr hk
  obtain ⟨k, _, hbest⟩ := List.mem_filterMap.mp hb
  have hbk : dedupKey b.c = k := by
    have := List.mem_filter.mp (bestOf_mem hbest)
    simpa using this.2
  have hrmem : r ∈ l.filter (fun s => dedupKey s.c = k) :=
    List.mem_filter.mpr ⟨hr, by simp [hk, hbk]⟩
  exact ordLt_eq_false_of_le (bestOf_le hbest r hrmem)


theorem rankedRows_spec (dist : List ℚ → List ℚ → ℚ) (qvec : Option (List ℚ)) (now : Int)
    (req : SearchReq) (cands : List Cand) :
    ∀ r ∈ rankedRows dist qvec now req cands,
      r.final = finalScoreOf r.c.bm25 r.vec r.tagScore r.decay ∧
      r.vec = vecScoreOf dist qvec r.c ∧
      r.tagScore = tagScoreOf (req.boostTags.map lowerStr) r.c := by
  intro r hr
  unfold rankedRows at hr
  obtain ⟨hr2, _⟩ := List.mem_filter.mp hr
  obtain ⟨c, _, rfl⟩ := List.mem_map.mp hr2
  exact ⟨rfl, rfl, rfl⟩

theorem vecScoreOf_zero_qvec (dist : List ℚ → List ℚ → ℚ) (c : Cand) :
    vecScoreOf dist none c = 0 := rfl

theorem vecScoreOf_zero_emb (dist : List ℚ → List ℚ → ℚ) (qvec : Option (List ℚ)) (c : Cand)
    (h : c.embedding = none) : vecScoreOf dist qvec c = 0 := by
  unfold vecScoreOf
  cases qvec with
  | none => rfl
  | some qv => rw [h]

theorem tagScoreOf_one_iff (boost : List Str) (c : Cand) :
    tagScoreOf boost c = 1 ↔ ∃ t ∈ c.tagNames, boost.contains (lowerStr t) = true := by
  unfold tagScoreOf
  by_cases hb : boost = []
  · subst hb
    simp only [if_pos rfl]
    constructor
    · intro h
      exact absurd h.symm one_ne_zero
    · rintro ⟨t, _, hc⟩
      simp at hc
  · rw [if_neg hb]
    by_cases ha : c.tagNames.any (fun t => boost.contains (lowerStr t)) = true
    · rw [if_pos ha]
      simp only [true_iff]
      simpa using List.any_eq_true.mp ha
    · rw [if_neg ha]
      constructor
      · intro h
        exact absurd h.symm one_ne_zero
      · intro hex
        exact absurd (List.any_eq_true.mpr (by simpa using hex)) ha

/-- C4: every returned hit's score is
`0.55·bm25 + 0.35·vec + 0.07·tag + 0.03·decay`, with `vec = 0` when the
query vector or the document embedding is missing and `tag = 1` iff a
boost_tag is attached; every hit is the best row of its `(title, preview)`
partition under (final DESC, ts DESC, len ASC); and the deduplicated rows
are ordered by that key before LIMIT/OFFSET is applied. -/
theorem C4_ranking (dist : List ℚ → List ℚ → ℚ) (qvec : Option (List ℚ)) (now : Int)
    (req : SearchReq) (cands : List Cand) :
    (∀ h ∈ (searchModel dist qvec now req cands).hits,
      h.score = 0.55 * h.row.c.bm25 + 0.35 * h.row.vec + 0.07 * h.row.tagScore +
        0.03 * h.row.decay ∧
      (qvec = none → h.row.vec = 0) ∧
      (h.row.c.embedding = none → h.row.vec = 0) ∧
      (h.row.tagScore = 1 ↔ ∃ t ∈ h.row.c.tagNames,
        (req.boostTags.map lowerStr).contains (lowerStr t) = true) ∧
      (h.row.tagScore = 1 ∨ h.row.tagScore = 0)) ∧
    (∀ h ∈ (searchModel dist qvec now req cands).hits,
      ∀ r ∈ rankedRows dist qvec now req cands,
        dedupKey r.c = dedupKey h.row.c → ordLt r h.row = false) ∧
    List.Pairwise (fun a b => ordLe a b = true) (sqlRows dist qvec now req cands) ∧
    (pyStrip req.query ≠ [] →
      (searchModel dist qvec now req cands).hits.map Hit.row =
        ((sqlRows dist qvec now req cands).drop (max 0 req.offset).toNat).take
          (max 1 (min 200 req.topK)).toNat) := by
  have hrowmem : ∀ h ∈ (searchModel dist qvec now req cands).hits,
      h.row ∈ dedupRows (rankedRows dist qvec now req cands) ∧ h.score = h.row.final := by
    intro h hh
    unfold searchModel at hh
    split at hh
    · cases hh
    · simp only [assembleResp] at hh
      obtain ⟨r, hrmem, rfl⟩ := List.mem_map.mp hh
      have h1 : r ∈ (dedupRows (rankedRows dist qvec now req cands)).mergeSort ordLe :=
        (List.drop_sublist _ _).mem ((List.take_sublist _ _).mem hrmem)
      exact ⟨(List.mergeSort_perm _ ordLe).mem_iff.mp h1, rfl⟩
  refine ⟨?_, ?_, ?_, ?_⟩
  · intro h hh
    obtain ⟨hmem, hs⟩ := hrowmem h hh
    have hranked := dedupRows_subset _ hmem
    obtain ⟨hfin, hvec, htag⟩ := rankedRows_spec dist qvec now req cands _ hranked
    refine ⟨?_, ?_, ?_, ?_, ?_⟩
    · rw [hs, hfin, finalScoreOf]
      norm_num
    · intro hq
      rw [hvec, hq]
      rfl
    · intro he
      rw [hvec]
      exact vecScoreOf_zero_emb dist qvec _ he
    · rw [htag]
      exact tagScoreOf_one_iff _ _
    · rw [htag]
      unfold tagScoreOf
      split
      · exact Or.inr rfl
      · split
        · exact Or.inl rfl
        · exact Or.inr rfl
  · intro h hh r hr hk
    obtain ⟨hmem, _⟩ := hrowmem h hh
    exact dedupRows_opt _ hmem r hr hk
  · exact List.sorted_mergeSort ordLe_trans ordLe_total _
  · intro hq
    simp only [searchModel, if_neg hq, assembleResp, sqlRows, List.map_map]
    have hcomp : (Hit.row ∘ fun r : Scored => Hit.mk r (coerceScore (.fin r.final))) = id := rfl
    rw [hcomp, List.map_id]

/-- C4 witness: the theorem applied at a concrete query over an empty
candidate table (the LIMIT/OFFSET hypothesis discharged concretely). -/
theorem C4_witness :
    (∀ h ∈ (searchModel (fun _ _ => 0) none 0
        { query := codes "q", topK := 10, offset := 0, tags := [], boostTags := [],
          dateFrom := none, dateTo := none, decayDays := 7 } []).hits,
      h.score = 0.55 * h.row.c.bm25 + 0.35 * h.row.vec + 0.07 * h.row.tagScore +
        0.03 * h.row.decay ∧
      ((none : Option (List ℚ)) = none → h.row.vec = 0) ∧
      (h.row.c.embedding = none → h.row.vec = 0) ∧
      (h.row.tagScore = 1 ↔ ∃ t ∈ h.row.c.tagNames,
        (([] : List Str).map lowerStr).contains (lowerStr t) = true) ∧
      (h.row.tagScore = 1 ∨ h.row.tagScore = 0)) ∧
    (∀ h ∈ (searchModel (fun _ _ => 0) none 0
        { query := codes "q", topK := 10, offset := 0, tags := [], boostTags := [],
          dateFrom := none, dateTo := none, decayDays := 7 } []).hits,
      ∀ r ∈ rankedRows (fun _ _ => 0) none 0
        { query := codes "q", topK := 10, offset := 0, tags := [], boostTags := [],
          dateFrom := none, dateTo := none, decayDays := 7 } [],
        dedupKey r.c = dedupKey h.row.c → ordLt r h.row = false) ∧
    List.Pairwise (fun a b => ordLe a b = true) (sqlRows (fun _ _ => 0) none 0
      { query := codes "q", topK := 10, offset := 0, tags := [], boostTags := [],
        dateFrom := none, dateTo := none, decayDays := 7 } []) ∧
    (searchModel (fun _ _ => 0) none 0
        { query := codes "q", topK := 10, offset := 0, tags := [], boostTags := [],
          dateFrom := none, dateTo := none, decayDays := 7 } []).hits.map Hit.row =
      ((sqlRows (fun _ _ => 0) none 0
        { query := codes "q", topK := 10, offset := 0, tags := [], boostTags := [],
          dateFrom := none, dateTo := none, decayDays := 7 } []).drop
          (max 0 (0 : Int)).toNat).take (max 1 (min 200 (10 : Int))).toNat :=
  ⟨(C4_ranking (fun _ _ => 0) none 0
      { query := codes "q", topK := 10, offset := 0, tags := [], boostTags := [],
        dateFrom := none, dateTo := none, decayDays := 7 } []).1,
   (C4_ranking (fun _ _ => 0) none 0
      { query := codes "q", topK := 10, offset := 0, tags := [], boostTags := [],
        dateFrom := none, dateTo := none, decayDays := 7 } []).2.1,
   (C4_ranking (fun _ _ => 0) none 0
      { query := codes "q", topK := 10, offset := 0, tags := [], boostTags := [],
        dateFrom := none, dateTo := none, decayDays := 7 } []).2.2.1,
   (C4_ranking (fun _ _ => 0) none 0
      { query := codes "q", topK := 10, offset := 0, tags := [], boostTags := [],
        dateFrom := none, dateTo := none, decayDays := 7 } []).2.2.2 (by decide)⟩


/-! ## C8 — chunker window geometry -/

theorem windowLoop_shape (cfg : ChunkCfg) (n : Nat) (hov : cfg.overlap < cfg.target) :
    ∀ (fuel i : Nat), ∀ p ∈ windowLoop cfg n fuel i,
      p.2 = min n (p.1 + cfg.target) ∧ i ≤ p.1 := by
  intro fuel
  induction fuel with
  | zero => intro i p hp; cases hp
  | succ fuel ih =>
      intro i p hp
      rw [windowLoop] at hp
      split at hp
      · next hin =>
          rcases List.mem_cons.mp hp with rfl | hp2
          · exact ⟨rfl, le_refl _⟩
          · split at hp2
            · cases hp2
            · next hnj =>
                obtain ⟨h1, h2⟩ := ih (min n (i + cfg.target) - cfg.overlap) p hp2
                refine ⟨h1, ?_⟩
                have hj : min n (i + cfg.target) = i + cfg.target := by omega
                omega
      · cases hp

theorem windowLoop_pairwise (cfg : ChunkCfg) (n : Nat) (hov : cfg.overlap < cfg.target) :
    ∀ (fuel i : Nat),
      List.Pairwise (fun p q : Nat × Nat => p.2 ≤ q.1 + cfg.overlap)
        (windowLoop cfg n fuel i) := by
  intro fuel
  induction fuel with
  | zero => intro i; exact List.Pairwise.nil
  | succ fuel ih =>
      intro i
      rw [windowLoop]
      split
      · next hin =>
          refine List.Pairwise.cons ?_ ?_
          · intro q hq
            split at hq
            · cases hq
            · next hnj =>
                obtain ⟨_, h2⟩ := windowLoop_shape cfg n hov fuel
                  (min n (i + cfg.target) - cfg.overlap) q hq
                omega
          · split
            · exact List.Pairwise.nil
            · exact ih _
      · exact List.Pairwise.nil

theorem windowLoop_chain (cfg : ChunkCfg) (n : Nat) (hov : cfg.overlap < cfg.target) :
    ∀ (fuel i : Nat),
      List.Chain' (fun p q : Nat × Nat => q.1 + cfg.overlap = p.2 ∧ p.2 = p.1 + cfg.target)
        (windowLoop cfg n fuel i) := by
  intro fuel
  induction fuel with
  | zero => intro i; exact List.chain'_nil
  | succ fuel ih =>
      intro i
      rw [windowLoop]
      split
      · next hin =>
          rw [List.chain'_cons']
          constructor
          · intro q hq
            split at hq
            · cases hq
            · next hnj =>
                have hj : min n (i + cfg.target) = i + cfg.target := by omega
                cases fuel with
                | zero => cases hq
                | succ fuel2 =>
                    rw [windowLoop] at hq
                    revert hq
                    split
                    · intro hq
                      simp only [List.head?_cons, Option.mem_def, Option.some_inj] at hq
                      subst hq
                      refine ⟨by omega, by omega⟩
                    · intro hq
                      cases hq
          · split
            · exact List.chain'_nil
            · exact ih _
      · exact List.chain'_nil


theorem pairwise_join (cfg : ChunkCfg) {m l : List Iv} {b c : Iv} (t : Str)
    (h : List.Pairwise (fun x y : Iv => x.b ≤ y.a + cfg.overlap) (m ++ [b] ++ (c :: l))) :
    List.Pairwise (fun x y : Iv => x.b ≤ y.a + cfg.overlap)
      (m ++ [Iv.mk b.a c.b t] ++ l) := by
  simp only [List.pairwise_append, List.pairwise_cons, List.mem_append, List.mem_cons,
    List.mem_singleton, List.not_mem_nil, List.Pairwise.nil, forall_eq] at h ⊢
  obtain ⟨⟨hPm, _, hmb⟩, ⟨hcl, hPl⟩, hcross⟩ := h
  refine ⟨⟨hPm, ⟨fun a' hf => hf.elim, trivial⟩, ?_⟩, hPl, ?_⟩
  · intro a ha b1 hb1
    rcases hb1 with rfl | hf
    · exact hmb a ha b (Or.inl rfl)
    · exact hf.elim
  · intro a ha b' hb'
    rcases ha with ha | ha
    · exact hcross a (Or.inl ha) b' (Or.inr hb')
    · rcases ha with rfl | hf
      · exact hcl b' hb'
      · exact hf.elim

theorem mergeFold_pairwise (cfg : ChunkCfg) :
    ∀ (l : List Iv) (acc : List Iv × Option Iv),
      List.Pairwise (fun x y : Iv => x.b ≤ y.a + cfg.overlap)
        (acc.1 ++ acc.2.toList ++ l) →
      List.Pairwise (fun x y : Iv => x.b ≤ y.a + cfg.overlap)
        ((l.foldl (mergeStep cfg) acc).1 ++ (l.foldl (mergeStep cfg) acc).2.toList) := by
  intro l
  induction l with
  | nil =>
      intro acc h
      simpa using h
  | cons c l ih =>
      intro acc h
      rw [List.foldl_cons]
      apply ih
      obtain ⟨m, buf⟩ := acc
      by_cases hshort : c.t.length < cfg.minJoin
      · cases buf with
        | some b =>
            have hstep : mergeStep cfg (m, some b) c =
                (m, some ⟨b.a, c.b, pyStrip (b.t ++ [10] ++ c.t)⟩) := by
              simp [mergeStep, hshort]
            rw [hstep]
            have h2 : List.Pairwise (fun x y : Iv => x.b ≤ y.a + cfg.overlap)
                (m ++ [b] ++ (c :: l)) := by
              simpa [List.append_assoc] using h
            have h3 := pairwise_join cfg (pyStrip (b.t ++ [10] ++ c.t)) h2
            simpa [List.append_assoc] using h3
        | none =>
            have hstep : mergeStep cfg (m, none) c = (m, some c) := by
              simp [mergeStep, hshort]
            rw [hstep]
            simpa [List.append_assoc] using h
      · cases buf with
        | some b =>
            by_cases hbshort : b.t.length < cfg.minJoin
            · have hstep : mergeStep cfg (m, some b) c =
                  (m ++ [⟨b.a, c.b, pyStrip (b.t ++ [10] ++ c.t)⟩], none) := by
                simp [mergeStep, hshort, hbshort]
              rw [hstep]
              have h2 : List.Pairwise (fun x y : Iv => x.b ≤ y.a + cfg.overlap)
                  (m ++ [b] ++ (c :: l)) := by
                simpa [List.append_assoc] using h
              have h3 := pairwise_join cfg (pyStrip (b.t ++ [10] ++ c.t)) h2
              simpa [List.append_assoc] using h3
            · have hstep : mergeStep cfg (m, some b) c = (m ++ [b, c], none) := by
                simp [mergeStep, hshort, hbshort]
              rw [hstep]
              simpa [List.append_assoc] using h
        | none =>
            have hstep : mergeStep cfg (m, none) c = (m ++ [c], none) := by
              simp [mergeStep, hshort]
            rw [hstep]
            simpa [List.append_assoc] using h

theorem mergeChunks_pairwise (cfg : ChunkCfg) {l : List Iv}
    (h : List.Pairwise (fun x y : Iv => x.b ≤ y.a + cfg.overlap) l) :
    List.Pairwise (fun x y : Iv => x.b ≤ y.a + cfg.overlap) (mergeChunks cfg l) := by
  have h2 := mergeFold_pairwise cfg l ([], none) (by simpa using h)
  simp only [mergeChunks]
  cases hb : (l.foldl (mergeStep cfg) ([], none)).2 with
  | some b =>
      rw [hb] at h2
      simpa using h2
  | none =>
      rw [hb] at h2
      simpa using h2


/-- C8: the chunker slides windows of `CHUNK_TARGET` characters advancing by
`CHUNK_TARGET - CHUNK_OVERLAP` after each window (each window end also sits
at `min(n, start + CHUNK_TARGET)`), drops empty (all-whitespace) windows;
any two adjacent output chunks share at most `CHUNK_OVERLAP` characters of
the source text (their source intervals intersect in at most that many
positions); and every retained chunk has length at least `CHUNK_MIN_KEEP`. -/
theorem C8_chunker (cfg : ChunkCfg) (s0 : Str) (hov : cfg.overlap < cfg.target) :
    List.Chain' (fun p q : Nat × Nat => q.1 + cfg.overlap = p.2 ∧ p.2 = p.1 + cfg.target)
      (windows cfg (pyStrip s0).length) ∧
    (∀ c ∈ rawChunks cfg (pyStrip s0),
      c.t ≠ [] ∧ c.t = pyStrip (pySlice (pyStrip s0) c.a c.b) ∧
      c.b = min (pyStrip s0).length (c.a + cfg.target)) ∧
    List.Chain' (fun c d : Iv => min c.b d.b - max c.a d.a ≤ cfg.overlap)
      (chunkTextIv cfg s0) ∧
    (∀ c ∈ chunkTextIv cfg s0, cfg.minKeep ≤ c.t.length) ∧
    chunkText cfg s0 = (chunkTextIv cfg s0).map Iv.t := by
  refine ⟨windowLoop_chain cfg _ hov _ 0, ?_, ?_, ?_, rfl⟩
  · intro c hc
    unfold rawChunks at hc
    obtain ⟨p, hp, heq⟩ := List.mem_filterMap.mp hc
    dsimp only at heq
    split at heq
    · cases heq
    · next hne =>
        injection heq with h2
        subst h2
        exact ⟨hne, rfl, (windowLoop_shape cfg _ hov _ 0 p hp).1⟩
  · simp only [chunkTextIv]
    split
    · exact List.chain'_nil
    · have h1 := windowLoop_pairwise cfg (pyStrip s0).length hov ((pyStrip s0).length + 1) 0
      have h2 : List.Pairwise (fun x y : Iv => x.b ≤ y.a + cfg.overlap)
          (rawChunks cfg (pyStrip s0)) := by
        unfold rawChunks
        refine List.pairwise_filterMap.mpr (h1.imp ?_)
        intro p q hpq x hx y hy
        rw [Option.mem_def] at hx hy
        dsimp only at hx hy
        split at hx
        · cases hx
        · split at hy
          · cases hy
          · injection hx with hx2
            injection hy with hy2
            subst hx2
            subst hy2
            exact hpq
      have h3 := mergeChunks_pairwise cfg h2
      have h4 : List.Pairwise (fun x y : Iv => x.b ≤ y.a + cfg.overlap)
          ((mergeChunks cfg (rawChunks cfg (pyStrip s0))).filter
            (fun c => cfg.minKeep ≤ c.t.length)) :=
        List.Pairwise.sublist (List.filter_sublist _) h3
      refine List.Chain'.imp ?_ h4.chain'
      intro a b hab
      omega
  · simp only [chunkTextIv]
    split
    · intro c hc
      cases hc
    · intro c hc
      simpa using (List.mem_filter.mp hc).2

/-- C8 witness: the theorem applied with the default configuration to a
concrete body. -/
theorem C8_witness :
    List.Chain' (fun p q : Nat × Nat =>
        q.1 + defaultCfg.overlap = p.2 ∧ p.2 = p.1 + defaultCfg.target)
      (windows defaultCfg (pyStrip (codes "a plain short email body")).length) ∧
    (∀ c ∈ rawChunks defaultCfg (pyStrip (codes "a plain short email body")),
      c.t ≠ [] ∧ c.t = pyStrip (pySlice (pyStrip (codes "a plain short email body")) c.a c.b) ∧
      c.b = min (pyStrip (codes "a plain short email body")).length (c.a + defaultCfg.target)) ∧
    List.Chain' (fun c d : Iv => min c.b d.b - max c.a d.a ≤ defaultCfg.overlap)
      (chunkTextIv defaultCfg (codes "a plain short email body")) ∧
    (∀ c ∈ chunkTextIv defaultCfg (codes "a plain short email body"),
      defaultCfg.minKeep ≤ c.t.length) ∧
    chunkText defaultCfg (codes "a plain short email body") =
      (chunkTextIv defaultCfg (codes "a plain short email body")).map Iv.t :=
  C8_chunker defaultCfg (codes "a plain short email body") (by decide)


end MindVault
